import Mathlib

/-!
Socket server request protocol: a shallow embedding of `socket_server.c`.

The development embeds the request pipeline of `src/server/socket_server.c`
(frame decoder, dispatcher, the four handlers and the response encoder)
together with the provider entry points of `src/server/proc_core.c` it calls.

Conventions of the embedding

* A C string is the list of its bytes before the terminating NUL (`CStr`).
  A pointer into a C string is the suffix that starts at the pointed byte, so
  `p + k` is `p.drop k` and the pointer difference `q - p` is the difference
  of the two suffix lengths.
* `int` values are mathematical integers; where the C library leaves a result
  undefined (an out-of-range `atoi`) the result is a parameter of the model.
* `snprintf(buf + off, size, ...)` is modelled on the C-string content of the
  buffer: the bytes before `off` are kept, at most `size - 1` bytes of the
  formatted text follow, and the untruncated length is returned.
* `malloc` is taken to succeed.
* `double` values are carried as their `%.2f` rendering.
-/

namespace SocketServer

/-- Contents of a NUL-terminated C string. -/
abbrev CStr := List Char

/-! ## Constants -/

/-- Size of the read buffer, `BUFFER_SIZE`. -/
def BUFFER_SIZE : Nat := 4096

/-- Size of every response buffer, `JSON_BUFFER_SIZE`. -/
def JSON_BUFFER_SIZE : Nat := 8192

/-- Capacity of the process table, `MAX_PROCS` of `proc_core.h`. -/
def MAX_PROCS : Nat := 256

/-- Smallest value of a C `int`. -/
def INT_MIN : Int := -2147483648

/-- Largest value of a C `int`. -/
def INT_MAX : Int := 2147483647

/-- Number of values of a `size_t` / `unsigned long`. -/
def SIZE_MOD : Nat := 2 ^ 64

/-- Modelled from the spec: the macro `MSG_GET_PROCESSES` of the header
`socket_server.h`, which is not part of the sources; the spec lists the
label `GetProcesses`. -/
def MSG_GET_PROCESSES : CStr := "GetProcesses".toList

/-- Modelled from the spec: the macro `MSG_GET_SIMPLE_DETAILS` of the header
`socket_server.h`, which is not part of the sources; the spec lists the
label `GetSimpleProcessDetails`. -/
def MSG_GET_SIMPLE_DETAILS : CStr := "GetSimpleProcessDetails".toList

/-- Modelled from the spec: the macro `MSG_GET_DETAILED_DETAILS` of the header
`socket_server.h`, which is not part of the sources; the spec lists the
label `GetDetailedProcessDetails`. -/
def MSG_GET_DETAILED_DETAILS : CStr := "GetDetailedProcessDetails".toList

/-- Modelled from the spec: the macro `MSG_SUSPEND_PROCESS` of the header
`socket_server.h`, which is not part of the sources; the spec lists the
label `SuspendProcess`. -/
def MSG_SUSPEND_PROCESS : CStr := "SuspendProcess".toList

/-! ## C library functions used by the server -/

/-- C `strstr`: the suffix of `hay` that starts at the first occurrence of
`needle`, or `none` (a null pointer) when there is no occurrence. -/
def strstr : CStr → CStr → Option CStr
  | [], needle => if needle.isPrefixOf [] then some [] else none
  | c :: cs, needle =>
    if needle.isPrefixOf (c :: cs) then some (c :: cs) else strstr cs needle

/-- C `strchr` for a non-NUL byte: the suffix of `s` that starts at the first
`c`, or `none`. -/
def strchr : CStr → Char → Option CStr
  | [], _ => none
  | d :: ds, c => if d = c then some (d :: ds) else strchr ds c

/-- C `isspace` in the "C" locale. -/
def isspace (c : Char) : Bool :=
  c = ' ' || c = '\t' || c = '\n' || c = '\x0b' || c = '\x0c' || c = '\r'

/-- C `isdigit`. -/
def isdigit (c : Char) : Bool :=
  48 ≤ c.toNat && c.toNat ≤ 57

/-- Digit loop of `atoi`: accumulates the leading decimal digits of the
string into `acc` and stops at the first byte that is not a digit. -/
def atoi_digits : Nat → CStr → Nat
  | acc, [] => acc
  | acc, c :: cs =>
    if isdigit c then atoi_digits (acc * 10 + (c.toNat - 48)) cs else acc

/-- Value denoted by the longest numeral at the start of a string, as `atoi`
reads it: leading white space is skipped, one sign is accepted, the decimal
digits that follow are accumulated. -/
def atoi_value (s : CStr) : Int :=
  match s.dropWhile isspace with
  | [] => 0
  | c :: cs =>
    if c = '-' then -(atoi_digits 0 cs : Int)
    else if c = '+' then (atoi_digits 0 cs : Int)
    else (atoi_digits 0 (c :: cs) : Int)

/-- C `atoi`. The numeral's value is returned when it is representable as an
`int`; otherwise the C standard leaves the result undefined and the model
returns what the platform yields, `ovf value`. -/
def atoi (ovf : Int → Int) (s : CStr) : Int :=
  let v := atoi_value s
  if INT_MIN ≤ v ∧ v ≤ INT_MAX then v else ovf v

/-- Decimal digit character of a number below ten. -/
def digitChar (d : Nat) : Char := Char.ofNat (48 + d)

/-- Decimal digits of `n`, most significant first, pushed in front of `acc`;
`fuel` bounds the number of digits produced. -/
def toDigitsFuel : Nat → Nat → CStr → CStr
  | 0, _, acc => acc
  | fuel + 1, n, acc =>
    if n < 10 then digitChar n :: acc
    else toDigitsFuel fuel (n / 10) (digitChar (n % 10) :: acc)

/-- Rendering of the conversions `%u` / `%lu`. -/
def fmt_u (n : Nat) : CStr := toDigitsFuel (n + 1) n []

/-- Rendering of the conversions `%d` / `%ld`. -/
def fmt_d (z : Int) : CStr :=
  if z < 0 then '-' :: fmt_u (-z).toNat else fmt_u z.toNat

/-- C `snprintf(buf + offset, size, ...)` with formatted text `text`, on the
C-string content `buf` of the destination buffer (`offset ≤ buf.length`).
Returns the new content and the return value of `snprintf`, the length of
the untruncated text. With `size = 0` nothing is written. -/
def snprintf_at (buf : CStr) (offset size : Nat) (text : CStr) : CStr × Nat :=
  (if size = 0 then buf else buf.take offset ++ text.take (size - 1), text.length)

/-- Conversion of an `int` to `size_t`, as happens to the size argument of
`snprintf`. -/
def to_size_t (z : Int) : Nat := (z % (SIZE_MOD : Int)).toNat

/-! ## Provider data (`proc_core.h`, `proc_core.c`) -/

/-- The fields of `proc_info_t` that the server reads. `cpu_usage` is a
`double` in the source and is carried as its `%.2f` rendering; `name` is the
C string held in the `char name[MAX_NAME_LEN]` array. The fields
`partition_id`, `priority`, `policy`, `num_threads`, `runtime` and `state`
are never read by the server. -/
structure proc_info_t where
  pid : Int
  name : CStr
  memory_usage : Nat
  cpu_usage : CStr
  start_time : Int
deriving DecidableEq, Repr

/-- One retained sample, `proc_history_entry_t`, with the three fields the
server prints; `cpu_usage` is carried as its `%.2f` rendering. -/
structure proc_history_entry_t where
  cpu_usage : CStr
  memory_usage : Nat
  timestamp : Int
deriving DecidableEq, Repr

/-- The history store: every recorded sample with the pid it belongs to,
oldest first. -/
abbrev History := List (Int × proc_history_entry_t)

/-- What one call of `process_message` observes of its surroundings: the value
returned by `proc_collect_info()`, the table `proc_get_list()` restricted to
its first `proc_get_count()` entries after that call, the value of
`time(NULL)`, the result of the platform's `atoi` on an out-of-range numeral,
and the constant `MAX_HISTORY_ENTRIES` of the missing header
`proc_history.h`. -/
structure Env where
  collect_ret : Int
  proc_list : List proc_info_t
  now : Int
  atoi_ovf : Int → Int
  MAX_HISTORY_ENTRIES : Nat

/-- The function `proc_adjust_priority` of `proc_core.c`: a placeholder that
prints a notice and returns -1. -/
def proc_adjust_priority (_pid _priority _policy : Int) : Int := -1

/-- Modelled from the spec: `proc_history_add_entry` of `proc_history.c`,
which is not part of the sources. The spec's `recordSample(pid, cpu, memory)`
appends one sample, stamped with the current time, to the retained series. -/
def proc_history_add_entry (hist : History) (now : Int) (pid : Int)
    (cpu_usage : CStr) (memory_usage : Nat) : History :=
  hist ++ [(pid, { cpu_usage := cpu_usage, memory_usage := memory_usage, timestamp := now })]

/-- Modelled from the spec: `proc_history_get_entries` of `proc_history.c`,
which is not part of the sources. The spec's `retrieveSamples(pid, maxCount)`
yields the retained samples of `pid` in insertion order, at most `maxCount`
of them. -/
def proc_history_get_entries (hist : History) (pid : Int) (max_count : Nat) :
    List proc_history_entry_t :=
  ((hist.filter (fun e => e.1 = pid)).map (fun e => e.2)).take max_count

/-! ## Response encoder (`socket_server.c`) -/

/-- Loop of `json_escape_string`: `lim1` is `dest_size - 1` and `lim2` is
`dest_size - 2` in `size_t` arithmetic, `dest` holds the bytes written so far
(`j = dest.length`), the first argument is the unread rest of `src`. -/
def json_escape_loop (lim1 lim2 : Nat) : CStr → CStr → CStr
  | [], dest => dest
  | c :: cs, dest =>
    if dest.length < lim1 then
      if c = '"' ∨ c = '\\' then
        if dest.length < lim2 then json_escape_loop lim1 lim2 cs (dest ++ ['\\', c])
        else json_escape_loop lim1 lim2 cs dest
      else if c = '\n' then
        if dest.length < lim2 then json_escape_loop lim1 lim2 cs (dest ++ ['\\', 'n'])
        else json_escape_loop lim1 lim2 cs dest
      else json_escape_loop lim1 lim2 cs (dest ++ [c])
    else dest

/-- The function `json_escape_string(dest, src, dest_size)`: the C string left
in `dest`. The two limits are computed in `size_t` arithmetic. -/
def json_escape_string (src : CStr) (dest_size : Nat) : CStr :=
  json_escape_loop ((dest_size + SIZE_MOD - 1) % SIZE_MOD)
    ((dest_size + SIZE_MOD - 2) % SIZE_MOD) src []

/-- The `for` loop of `handle_get_processes` over the entries not yet
visited: `response` is the buffer content, `offset` the running offset. An
entry that is not the last one (`i < proc_count - 1`) is printed with a
comma. The loop stops at the first `snprintf` that reports truncation. -/
def get_processes_loop : CStr → Nat → List proc_info_t → CStr × Nat
  | response, offset, [] => (response, offset)
  | response, offset, p :: rest =>
    let remaining : Int := (JSON_BUFFER_SIZE : Int) - (offset : Int)
    let text := if rest.length > 0 then fmt_d p.pid ++ [','] else fmt_d p.pid
    let r := snprintf_at response offset (to_size_t remaining) text
    if (r.2 : Int) ≥ remaining then (r.1, offset)
    else get_processes_loop r.1 (offset + r.2) rest

/-- Buffer content and running offset of `handle_get_processes` right before
the closing `snprintf`. -/
def get_processes_state (env : Env) : CStr × Nat :=
  let r := snprintf_at [] 0 JSON_BUFFER_SIZE
    ("\x7b\"request_type\":\"".toList ++ MSG_GET_PROCESSES ++ "\",\"pids\":[".toList)
  if env.collect_ret ≥ 0 then get_processes_loop r.1 r.2 env.proc_list else r

/-- The function `handle_get_processes`: the response text. -/
def handle_get_processes (env : Env) : CStr :=
  let st := get_processes_state env
  (snprintf_at st.1 st.2 (to_size_t ((JSON_BUFFER_SIZE : Int) - (st.2 : Int))) "]\x7d".toList).1

/-- The user group chosen by `handle_simple_process_details` from the pid. -/
def user_group (pid : Int) : CStr :=
  if pid ≤ 100 then "System".toList
  else if pid ≤ 1000 then "User".toList
  else "Background".toList

/-- The function `handle_simple_process_details`: the response text. The
search loop stops at the first table entry whose pid equals the target. -/
def handle_simple_process_details (env : Env) (pid : Int) : CStr :=
  let response := (snprintf_at [] 0 JSON_BUFFER_SIZE
    ("\x7b\"request_type\":\"".toList ++ MSG_GET_SIMPLE_DETAILS ++ "\",\"pid\":".toList
      ++ fmt_d pid)).1
  let response :=
    if env.collect_ret ≥ 0 then
      match env.proc_list.find? (fun p => p.pid = pid) with
      | some p =>
        let name_escaped := json_escape_string p.name 256
        let uptime : Nat := ((env.now - p.start_time) % (SIZE_MOD : Int)).toNat
        (snprintf_at response response.length
          (to_size_t ((JSON_BUFFER_SIZE : Int) - (response.length : Int)))
          (",\"name\":\"".toList ++ name_escaped ++ "\",\"user\":\"".toList ++ user_group pid
            ++ "\",\"uptime\":".toList ++ fmt_u uptime ++ ",\"cpu_usage\":".toList
            ++ p.cpu_usage ++ ",\"ram_usage\":".toList ++ fmt_u p.memory_usage)).1
      | none => response
    else response
  response ++ "\x7d".toList

/-- The inner `for` loop of `handle_detailed_process_details` over the history
entries not yet visited; `j` is the index of the next entry. -/
def detailed_entries_loop : CStr → Nat → Nat → List proc_history_entry_t → CStr × Nat
  | response, offset, _, [] => (response, offset)
  | response, offset, j, e :: rest =>
    let remaining : Int := (JSON_BUFFER_SIZE : Int) - (offset : Int)
    let text := (if j > 0 then ",".toList else []) ++ "\x7b\"cpu_usage\":".toList ++ e.cpu_usage
      ++ ",\"ram_usage\":".toList ++ fmt_u e.memory_usage ++ ",\"timestamp\":".toList
      ++ fmt_d e.timestamp ++ "\x7d".toList
    let r := snprintf_at response offset (to_size_t remaining) text
    if (r.2 : Int) ≥ remaining then (r.1, offset)
    else detailed_entries_loop r.1 (offset + r.2) (j + 1) rest

/-- The function `handle_detailed_process_details`: the history store after
the call and the response text. -/
def handle_detailed_process_details (env : Env) (hist : History) (pid : Int) :
    History × CStr :=
  let r := snprintf_at [] 0 JSON_BUFFER_SIZE
    ("\x7b\"request_type\":\"".toList ++ MSG_GET_DETAILED_DETAILS ++ "\",\"pid\":".toList
      ++ fmt_d pid ++ ",\"entries\":[".toList)
  let st : History × (CStr × Nat) :=
    if env.collect_ret ≥ 0 then
      match env.proc_list.find? (fun p => p.pid = pid) with
      | some p =>
        let hist1 := proc_history_add_entry hist env.now pid p.cpu_usage p.memory_usage
        let history_entries :=
          proc_history_get_entries hist1 pid env.MAX_HISTORY_ENTRIES
        (hist1, detailed_entries_loop r.1 r.2 0 history_entries)
      | none => (hist, r)
    else (hist, r)
  (st.1, (snprintf_at st.2.1 st.2.2
    (to_size_t ((JSON_BUFFER_SIZE : Int) - (st.2.2 : Int))) "]\x7d".toList).1)

/-- The function `handle_suspend_process`: the response text. -/
def handle_suspend_process (pid : Int) : CStr :=
  let success : Bool := proc_adjust_priority pid 0 0 == 0
  (snprintf_at [] 0 JSON_BUFFER_SIZE
    ("\x7b\"request_type\":\"".toList ++ MSG_SUSPEND_PROCESS ++ "\",\"pid\":".toList
      ++ fmt_d pid ++ ",\"success\":".toList
      ++ (if success then "true".toList else "false".toList) ++ "\x7d".toList)).1

/-! ## Frame decoder and dispatcher (`process_message`) -/

/-- The key text searched for the operation, `"request_type":"` with its
quotes. -/
def KEY_REQUEST_TYPE : CStr := "\"request_type\":\"".toList

/-- The key text searched for the target, `"PID":` with its quotes. -/
def KEY_PID : CStr := "\"PID\":".toList

/-- First part of `process_message`: the string copied into `request_type`,
or `none` when the pointer stays null. The source advances `type_start` by
15 bytes and copies the bytes up to the next double quote. -/
def decode_request_type (message : CStr) : Option CStr :=
  match strstr message KEY_REQUEST_TYPE with
  | none => none
  | some type_start =>
    let type_start := type_start.drop 15
    match strchr type_start '"' with
    | none => none
    | some type_end =>
      let type_len := type_start.length - type_end.length
      some (type_start.take type_len)

/-- Second part of `process_message`: the value of `pid`, -1 unless the key
text occurs, else `atoi` of what follows its first occurrence. -/
def decode_pid (ovf : Int → Int) (message : CStr) : Int :=
  match strstr message KEY_PID with
  | none => -1
  | some pid_start => atoi ovf (pid_start.drop 6)

/-- The handler invocations `process_message` can make. -/
inductive HandlerCall where
  | get_processes : HandlerCall
  | simple_process_details : Int → HandlerCall
  | detailed_process_details : Int → HandlerCall
  | suspend_process : Int → HandlerCall
deriving DecidableEq, Repr

/-- The `if` / `else if` chain of `process_message`: which handler is
invoked for a decoded operation and target, `none` when no branch is taken.
`strcmp(a, b) == 0` is equality of the two C strings. -/
def select_handler (request_type : Option CStr) (pid : Int) : Option HandlerCall :=
  match request_type with
  | none => none
  | some rt =>
    if rt = MSG_GET_PROCESSES then some HandlerCall.get_processes
    else if rt = MSG_GET_SIMPLE_DETAILS ∧ pid ≥ 0 then
      some (HandlerCall.simple_process_details pid)
    else if rt = MSG_GET_DETAILED_DETAILS ∧ pid ≥ 0 then
      some (HandlerCall.detailed_process_details pid)
    else if rt = MSG_SUSPEND_PROCESS ∧ pid ≥ 0 then
      some (HandlerCall.suspend_process pid)
    else none

/-- Runs the invoked handler: the history store afterwards and the response
text. -/
def run_handler (env : Env) (hist : History) : HandlerCall → History × CStr
  | HandlerCall.get_processes => (hist, handle_get_processes env)
  | HandlerCall.simple_process_details pid => (hist, handle_simple_process_details env pid)
  | HandlerCall.detailed_process_details pid => handle_detailed_process_details env hist pid
  | HandlerCall.suspend_process pid => (hist, handle_suspend_process pid)

/-- Last part of `process_message`, from `char *response = NULL;` on: the
history store afterwards and the list of `socket_server_send` calls made,
each with its socket and text. A response is sent exactly when a handler was
invoked. -/
def dispatch (env : Env) (hist : History) (client_socket : Int)
    (request_type : Option CStr) (pid : Int) : History × List (Int × CStr) :=
  match select_handler request_type pid with
  | none => (hist, [])
  | some call =>
    let r := run_handler env hist call
    (r.1, [(client_socket, r.2)])

/-- The function `process_message(client_socket, message)`: both fields are
decoded from the frame, then the request is dispatched. -/
def process_message (env : Env) (hist : History) (client_socket : Int) (message : CStr) :
    History × List (Int × CStr) :=
  dispatch env hist client_socket (decode_request_type message)
    (decode_pid env.atoi_ovf message)

/-- An environment whose provider holds the pids 42, 7 and 500. -/
def env_three : Env :=
  { collect_ret := 3
    proc_list :=
      [ { pid := 42, name := "init".toList, memory_usage := 4096,
          cpu_usage := "0.00".toList, start_time := 10 },
        { pid := 7, name := "sh".toList, memory_usage := 8192,
          cpu_usage := "0.50".toList, start_time := 20 },
        { pid := 500, name := "mon".toList, memory_usage := 1024,
          cpu_usage := "1.25".toList, start_time := 30 } ]
    now := 1000
    atoi_ovf := fun _ => 0
    MAX_HISTORY_ENTRIES := 100 }

/-- A process entry whose pid has nine digits. -/
def proc_wide : proc_info_t :=
  { pid := 100000000, name := "w".toList, memory_usage := 0,
    cpu_usage := "0.00".toList, start_time := 0 }

/-- A process entry whose pid has two digits. -/
def proc_last : proc_info_t :=
  { pid := 55, name := "w".toList, memory_usage := 0,
    cpu_usage := "0.00".toList, start_time := 0 }

/-- An environment whose provider holds 816 processes: 815 with pid 100000000
and a last one with pid 55. The pid list takes 8152 bytes, so that the running
offset of `handle_get_processes` ends at 8191. -/
def env_overflow : Env :=
  { collect_ret := 816
    proc_list := List.replicate 815 proc_wide ++ [proc_last]
    now := 0
    atoi_ovf := fun _ => 0
    MAX_HISTORY_ENTRIES := 100 }

/-- An environment whose provider holds 1000 processes with pid 100000000:
the pid texts exceed the response buffer. -/
def env_truncated : Env :=
  { collect_ret := 1000
    proc_list := List.replicate 1000 proc_wide
    now := 0
    atoi_ovf := fun _ => 0
    MAX_HISTORY_ENTRIES := 100 }

/-! ## Reference texts of the specification -/

/-- Escaped form of one byte in the spec's escaping rule: a double quote
becomes backslash and double quote, a backslash becomes two backslashes, a
newline becomes backslash and `n`, every other byte stands for itself. -/
def escape_char (c : Char) : CStr :=
  if c = '"' then ['\\', '"']
  else if c = '\\' then ['\\', '\\']
  else if c = '\n' then ['\\', 'n']
  else [c]

/-- Fully escaped form of a string: the character-wise image under
`escape_char`. -/
def escaped_form (s : CStr) : CStr := s.flatMap escape_char

/-- Reading an escaped text back: a backslash and the byte after it stand
for one byte, a newline when that byte is `n`. -/
def json_unescape : CStr → CStr
  | [] => []
  | [c] => [c]
  | c :: d :: rest =>
    if c = '\\' then (if d = 'n' then '\n' else d) :: json_unescape rest
    else c :: json_unescape (d :: rest)

/-- Text of the opening of a `GetProcesses` response. -/
def get_processes_header : CStr := "\x7b\"request_type\":\"GetProcesses\",\"pids\":[".toList

/-- Comma-separated decimal pids of a process list, in list order. -/
def pids_text (l : List proc_info_t) : CStr :=
  List.intercalate [','] (l.map (fun p => fmt_d p.pid))

/-- Decimal pids of a process list, each one followed by a comma. -/
def pids_with_commas (l : List proc_info_t) : CStr :=
  (l.map (fun p => fmt_d p.pid ++ [','])).flatten

/-- Text of the opening of a `GetSimpleProcessDetails` response, up to the
pid. -/
def simple_details_header : CStr :=
  "\x7b\"request_type\":\"GetSimpleProcessDetails\",\"pid\":".toList

/-- An environment whose provider holds one process of each pid band. -/
def env_bands : Env :=
  { collect_ret := 3
    proc_list :=
      [ { pid := 100, name := "io \"x\"".toList, memory_usage := 4096,
          cpu_usage := "0.00".toList, start_time := 10 },
        { pid := 1000, name := "sh".toList, memory_usage := 8192,
          cpu_usage := "0.50".toList, start_time := 20 },
        { pid := 1001, name := "mon".toList, memory_usage := 1024,
          cpu_usage := "1.25".toList, start_time := 30 } ]
    now := 1000
    atoi_ovf := fun _ => 0
    MAX_HISTORY_ENTRIES := 100 }

/-- Text of the opening of a `GetDetailedProcessDetails` response for a
pid, up to the bracket that opens the entries array. -/
def detailed_header (pid : Int) : CStr :=
  "\x7b\"request_type\":\"GetDetailedProcessDetails\",\"pid\":".toList ++ fmt_d pid
    ++ ",\"entries\":[".toList

/-- Text of one entry object of a `GetDetailedProcessDetails` response. -/
def entry_text (e : proc_history_entry_t) : CStr :=
  "\x7b\"cpu_usage\":".toList ++ e.cpu_usage ++ ",\"ram_usage\":".toList
    ++ fmt_u e.memory_usage ++ ",\"timestamp\":".toList ++ fmt_d e.timestamp ++ "\x7d".toList

/-- Comma-separated entry objects of a list of samples, in list order. -/
def entries_text (es : List proc_history_entry_t) : CStr :=
  List.intercalate [','] (es.map entry_text)

/-- Text of a complete `GetDetailedProcessDetails` response whose entries
array holds the samples `es`. -/
def detailed_response (pid : Int) (es : List proc_history_entry_t) : CStr :=
  detailed_header pid ++ entries_text es ++ "]\x7d".toList

/-! ## Process groups (`proc_group.c`) -/

/-- Capacity of the group table, `MAX_GROUPS`. -/
def MAX_GROUPS : Nat := 8

/-- Modelled from the spec: the struct `process_group_t` of the header
`proc_group.h`, which is not part of the sources. The spec gives no layout;
the fields are those that `proc_group.c` assigns and prints: `id` (`%d`),
`name`, `priority` (`%u`), `cpu_usage` (a `double`, carried as its `%.2f`
rendering) and `memory_usage` (`%lu`). -/
structure process_group_t where
  id : Int
  name : CStr
  priority : Nat
  cpu_usage : CStr
  memory_usage : Nat
deriving DecidableEq, Repr

/-- The tracked part of the group table: the entries
`group_list[0 .. group_count)`, so that `group_count` is the length of the
list. -/
abbrev GroupTable := List process_group_t

/-- Conversion of an `int` to `unsigned`, as happens when the priority is
stored. -/
def to_unsigned (z : Int) : Nat := (z % (2 ^ 32 : Int)).toNat

/-- The function `proc_group_collect_info`: the value returned and the
tracked table afterwards, three predefined groups whatever was tracked
before. -/
def proc_group_collect_info (_groups : GroupTable) : Int × GroupTable :=
  (3,
    [ { id := 0, name := "System".toList, priority := 10, cpu_usage := "0.00".toList,
        memory_usage := 0 },
      { id := 1, name := "User".toList, priority := 5, cpu_usage := "0.00".toList,
        memory_usage := 0 },
      { id := 2, name := "Background".toList, priority := 2, cpu_usage := "0.00".toList,
        memory_usage := 0 } ])

/-- The search loop of `proc_group_adjust_priority` over the tracked groups
not yet visited: the value of `result` after the loop and the groups
afterwards. The first group whose id matches gets the priority and ends the
loop. -/
def adjust_priority_loop : GroupTable → Int → Int → Int × GroupTable
  | [], _, _ => (-1, [])
  | g :: gs, group_id, priority =>
    if g.id = group_id then (0, { g with priority := to_unsigned priority } :: gs)
    else
      let r := adjust_priority_loop gs group_id priority
      (r.1, g :: r.2)

/-- The function `proc_group_adjust_priority(group_id, priority)`: the value
returned and the tracked table afterwards. -/
def proc_group_adjust_priority (groups : GroupTable) (group_id priority : Int) :
    Int × GroupTable :=
  if priority < 1 ∨ priority > 63 then (-1, groups)
  else adjust_priority_loop groups group_id priority

/-- The function `proc_group_find_process(pid, group_id)`. The pointer
`group_id` is `none` when null and `some v` when it points to an `int`
holding `v`; the result is the value returned and the pointee afterwards. -/
def proc_group_find_process (pid : Int) (group_id : Option Int) : Int × Option Int :=
  match group_id with
  | none => (-1, none)
  | some _ =>
    let g : Int := 0
    let g : Int := if pid > 100 then 1 else g
    let g : Int := if pid > 1000 then 2 else g
    (0, some g)

/-! ## Connection registry and event loop (`socket_thread`) -/

/-- Capacity of the connection registry, `MAX_CLIENTS`. -/
def MAX_CLIENTS : Nat := 30

/-- The calls of the event loop and of `socket_server_shutdown` that act on
the outside: `close(fd)`, the store `buffer[index] = '\0'` that precedes a
dispatch, `process_message(sd, buffer)` with the C string found in `buffer`,
and `proc_history_shutdown()`. -/
inductive Event where
  | close : Int → Event
  | store_terminator : Int → Event
  | process_message : Int → CStr → Event
  | history_shutdown : Event
deriving DecidableEq, Repr

/-- The state the event loop works on: the globals `server_fd`,
`client_sockets` (the array of `MAX_CLIENTS` slots), `num_clients` and
`running`, the bytes of the local array `buffer` of `socket_thread`, and the
calls made so far, oldest first. -/
structure ServerState where
  server_fd : Int
  client_sockets : List Int
  num_clients : Int
  running : Int
  buffer : List Char
  events : List Event
deriving DecidableEq, Repr

/-- What the operating system answers during one cycle of the loop: the
value returned by `select`, the descriptors it reports ready, the value
returned by `accept` when it is called, and for the `read` on slot `i` the
value returned and the bytes delivered. -/
structure CycleInput where
  activity : Int
  ready : Int → Bool
  accept_ret : Int
  read_ret : Nat → Int
  read_data : Nat → List Char

/-- The function `init_client_sockets`: every slot holds the empty marker. -/
def init_client_sockets (st : ServerState) : ServerState :=
  { st with client_sockets := List.replicate MAX_CLIENTS 0 }

/-- The descriptor set after `select`: of the listening descriptor and the
slots with `sd > 0` that were put in the set, those reported ready. -/
def read_fds (st : ServerState) (inp : CycleInput) : List Int :=
  (st.server_fd :: st.client_sockets.filter (fun sd => sd > 0)).filter inp.ready

/-- The registration loop after `accept`: the slots afterwards and whether
the new descriptor was stored. The first slot holding 0 takes it. -/
def register_slot : List Int → Int → List Int × Bool
  | [], _ => ([], false)
  | c :: cs, new_socket =>
    if c = 0 then (new_socket :: cs, true)
    else
      let r := register_slot cs new_socket
      (c :: r.1, r.2)

/-- The registration of an accepted connection `new_socket` (lines 288 to
295): `num_clients` grows when a slot took it; nothing else is done. -/
def accept_register (st : ServerState) (new_socket : Int) : ServerState :=
  let r := register_slot st.client_sockets new_socket
  if r.2 then { st with client_sockets := r.1, num_clients := st.num_clients + 1 }
  else st

/-- The C string that starts at `buffer`: the bytes before the first NUL. -/
def buffer_string (buffer : List Char) : CStr :=
  buffer.takeWhile (fun c => c ≠ '\x00')

/-- The body of the read loop for slot `i` (lines 299 to 311), with the
descriptor set `fds` left by `select`. A `read` that returns 0 closes the
descriptor and frees the slot; any other value, a negative one included,
takes the `else` branch: the terminator is stored at index `valread` (inside
the array only for `0 ≤ valread < BUFFER_SIZE`) and `process_message` is
called on the buffer. -/
def read_slot (inp : CycleInput) (fds : List Int) (st : ServerState) (i : Nat) :
    ServerState :=
  let sd := st.client_sockets.getD i 0
  if fds.contains sd then
    let valread := inp.read_ret i
    if valread = 0 then
      { st with
        client_sockets := st.client_sockets.set i 0
        num_clients := st.num_clients - 1
        events := st.events ++ [Event.close sd] }
    else
      let received :=
        if valread > 0 then
          (inp.read_data i).take valread.toNat ++ st.buffer.drop valread.toNat
        else st.buffer
      let terminated :=
        if 0 ≤ valread ∧ valread < (BUFFER_SIZE : Int) then received.set valread.toNat '\x00'
        else received
      { st with
        buffer := terminated
        events := st.events ++ [Event.store_terminator valread,
          Event.process_message sd (buffer_string terminated)] }
  else st

/-- The read loop over all slots (lines 298 to 312). -/
def read_clients (inp : CycleInput) (fds : List Int) (st : ServerState) : ServerState :=
  (List.range MAX_CLIENTS).foldl (read_slot inp fds) st

/-- One cycle of the `while (running)` loop of `socket_thread`. A failing
`select` or `accept` ends the cycle at once (`continue`). -/
def socket_cycle (inp : CycleInput) (st : ServerState) : ServerState :=
  let fds := read_fds st inp
  if inp.activity < 0 then st
  else if fds.contains st.server_fd then
    if inp.accept_ret < 0 then st
    else read_clients inp fds (accept_register st inp.accept_ret)
  else read_clients inp fds st

/-- The closing loop of `socket_server_shutdown` over the slots: the slots
afterwards and the `close` calls made. -/
def shutdown_slots : List Int → List Int × List Event
  | [] => ([], [])
  | c :: cs =>
    let r := shutdown_slots cs
    if c > 0 then (0 :: r.1, Event.close c :: r.2) else (c :: r.1, r.2)

/-- The function `socket_server_shutdown`. -/
def socket_server_shutdown (st : ServerState) : ServerState :=
  let r := shutdown_slots st.client_sockets
  let st1 := { st with running := 0, client_sockets := r.1, events := st.events ++ r.2 }
  let st2 :=
    if st1.server_fd ≥ 0 then
      { st1 with server_fd := -1, events := st1.events ++ [Event.close st1.server_fd] }
    else st1
  { st2 with events := st2.events ++ [Event.history_shutdown] }

/-- A registry whose 30 slots hold the descriptors 4 to 33, with the
listening descriptor 3. -/
def state_full : ServerState :=
  { server_fd := 3
    client_sockets := (List.range MAX_CLIENTS).map (fun i => (i : Int) + 4)
    num_clients := 30
    running := 1
    buffer := List.replicate BUFFER_SIZE '\x00'
    events := [] }

/-- A cycle in which only the listening descriptor is ready and `accept`
returns the descriptor 34. -/
def input_accept : CycleInput :=
  { activity := 1
    ready := fun fd => fd == 3
    accept_ret := 34
    read_ret := fun _ => 0
    read_data := fun _ => [] }

/-- A registry with the single connection 5 in slot 0; the buffer still
holds the frame `stale` of an earlier read. -/
def state_one : ServerState :=
  { server_fd := 3
    client_sockets := 5 :: List.replicate 29 0
    num_clients := 1
    running := 1
    buffer := "stale".toList ++ List.replicate 4091 '\x00'
    events := [] }

/-- A cycle in which only the descriptor 5 is ready and `read` fails
with -1. -/
def input_read_error : CycleInput :=
  { activity := 1
    ready := fun fd => fd == 5
    accept_ret := -1
    read_ret := fun _ => -1
    read_data := fun _ => [] }

/-- A cycle in which only the descriptor 5 is ready and `read` returns 0:
the peer has closed. -/
def input_peer_closed : CycleInput :=
  { activity := 1
    ready := fun fd => fd == 5
    accept_ret := -1
    read_ret := fun _ => 0
    read_data := fun _ => [] }

/-- The samples of `pid` that a history store retains, oldest first. -/
def retained_samples (hist : History) (pid : Int) : List proc_history_entry_t :=
  (hist.filter (fun e => e.1 = pid)).map (fun e => e.2)

/-- The sample that a detailed query at time `now` records for the matched
process `p`. -/
def sample_of (p : proc_info_t) (now : Int) : proc_history_entry_t :=
  { cpu_usage := p.cpu_usage, memory_usage := p.memory_usage, timestamp := now }

/-- Text printed for the entry with index `j`: a comma in front of every
entry but the first. -/
def entry_text_at (j : Nat) (e : proc_history_entry_t) : CStr :=
  (if j > 0 then [','] else []) ++ entry_text e

/-- Text printed for a run of entries whose first one has index `j`. -/
def entries_text_at : Nat → List proc_history_entry_t → CStr
  | _, [] => []
  | j, e :: rest => entry_text_at j e ++ entries_text_at (j + 1) rest

/-- A history store that already holds 100 samples of the pid 7. -/
def hist_saturated : History :=
  List.replicate 100
    (7, { cpu_usage := "0.50".toList, memory_usage := 8192, timestamp := 900 })

/-- The units an escaped text is made of: one byte other than double quote,
backslash and newline, or one of the two-byte escapes backslash and double
quote, two backslashes, backslash and `n`. -/
def is_escape_unit (u : CStr) : Prop :=
  (∃ c : Char, u = [c] ∧ c ≠ '"' ∧ c ≠ '\\' ∧ c ≠ '\n')
    ∨ u = ['\\', '"'] ∨ u = ['\\', '\\'] ∨ u = ['\\', 'n']

/-- A cycle in which only the descriptor 5 is ready and `read` fills the
whole buffer: it returns `BUFFER_SIZE`. -/
def input_read_full : CycleInput :=
  { activity := 1
    ready := fun fd => fd == 5
    accept_ret := -1
    read_ret := fun _ => 4096
    read_data := fun _ => List.replicate 4096 'x' }

/-- The registry as `socket_server_init` leaves it: every slot empty,
`num_clients` 0, the listening descriptor 3, nothing called yet. -/
def state_init : ServerState :=
  init_client_sockets
    { server_fd := 3
      client_sockets := []
      num_clients := 0
      running := 1
      buffer := List.replicate BUFFER_SIZE '\x00'
      events := [] }

/-- Number of slots of the registry that do not hold the empty marker. -/
def nonzero_slots (st : ServerState) : Nat :=
  (st.client_sockets.filter (fun c => c ≠ 0)).length

/-- The operations on the registry: the registration of a descriptor that
`accept` returned (into a free slot, or nowhere when the registry is full),
the unregistration of the connection in slot `i` whose `read` returned 0,
and `socket_server_shutdown`. -/
inductive RegistryOp where
  | accept : Int → RegistryOp
  | peer_close : Nat → RegistryOp
  | shutdown : RegistryOp
deriving DecidableEq, Repr

/-- Effect of one registry operation. A peer close acts on a slot that
holds a registered descriptor (`sd > 0`, so that it was put in the
descriptor set): it is the body of the read loop with that descriptor
flagged and `read` returning 0. -/
def apply_op (st : ServerState) : RegistryOp → ServerState
  | RegistryOp.accept new_socket => accept_register st new_socket
  | RegistryOp.peer_close i =>
    if st.client_sockets.getD i 0 > 0 then
      read_slot input_peer_closed [st.client_sockets.getD i 0] st i
    else st
  | RegistryOp.shutdown => socket_server_shutdown st

/-- Effect of a sequence of registry operations, first one first. -/
def run_ops (st : ServerState) (ops : List RegistryOp) : ServerState :=
  ops.foldl apply_op st

/-- The result of `atoi` on an out-of-range numeral where `atoi` is
`(int) strtol(...)` with a 64-bit `long` and the numeral fits a `long`: the
value reduced to 32 bits in two's complement. -/
def atoi_wrap (v : Int) : Int := (v + 2147483648) % 4294967296 - 2147483648

/-- The environment `env_three` on a platform whose `atoi` wraps. -/
def env_wrap : Env := { env_three with atoi_ovf := atoi_wrap }

/-- The state in which a cycle that is not cut short enters its read loop:
after the registration when the listening descriptor is flagged, otherwise
the state the cycle started in. -/
def read_loop_start (inp : CycleInput) (st : ServerState) : ServerState :=
  if (read_fds st inp).contains st.server_fd then accept_register st inp.accept_ret else st

/-- The state in which the read loop of the cycle reaches slot `i`: the
slots `0 .. i - 1` have been handled. -/
def read_loop_before (inp : CycleInput) (st : ServerState) (i : Nat) : ServerState :=
  (List.range i).foldl (read_slot inp (read_fds st inp)) (read_loop_start inp st)

/-- The rest of the read loop of the cycle after slot `i`, run from the
state `s`: the slots `i + 1 .. MAX_CLIENTS - 1` are handled. -/
def read_loop_rest (inp : CycleInput) (st : ServerState) (i : Nat) (s : ServerState) :
    ServerState :=
  (List.range' (i + 1) (MAX_CLIENTS - (i + 1))).foldl (read_slot inp (read_fds st inp)) s

/-! ## Lemmas on the C library functions -/

theorem strstr_some {hay needle s : CStr} (h : strstr hay needle = some s) :
    ∃ pre t, hay = pre ++ s ∧ s = needle ++ t := by
  induction hay with
  | nil =>
    simp only [strstr] at h
    split at h
    · rename_i hp
      cases h
      have hn : needle = [] := by
        cases needle with
        | nil => rfl
        | cons a t => simp [List.isPrefixOf] at hp
      exact ⟨[], [], rfl, by simp [hn]⟩
    · cases h
  | cons c cs ih =>
    simp only [strstr] at h
    split at h
    · rename_i hp
      cases h
      obtain ⟨t, ht⟩ := List.isPrefixOf_iff_prefix.mp hp
      exact ⟨[], t, rfl, ht.symm⟩
    · obtain ⟨pre, t, h1, h2⟩ := ih h
      exact ⟨c :: pre, t, by simp [← h1], h2⟩

theorem strstr_eq_none {hay needle : CStr} (h : ¬ needle <:+: hay) :
    strstr hay needle = none := by
  cases hs : strstr hay needle with
  | none => rfl
  | some s =>
    obtain ⟨pre, t, h1, h2⟩ := strstr_some hs
    exact absurd ⟨pre, t, by rw [h1, h2, List.append_assoc]⟩ h

theorem strstr_first (pre needle post : CStr)
    (hfirst : ∀ pre2 post2 : CStr,
      pre ++ needle ++ post = pre2 ++ needle ++ post2 → pre.length ≤ pre2.length) :
    strstr (pre ++ needle ++ post) needle = some (needle ++ post) := by
  induction pre with
  | nil =>
    have hp : needle.isPrefixOf (needle ++ post) = true :=
      List.isPrefixOf_iff_prefix.mpr ⟨post, rfl⟩
    cases hnp : needle ++ post with
    | nil =>
      rw [hnp] at hp
      simp [strstr, hp, hnp]
    | cons c cs =>
      rw [hnp] at hp
      simp [strstr, hp, hnp]
  | cons a pre ih =>
    have hnot : needle.isPrefixOf (a :: (pre ++ needle ++ post)) = false := by
      cases hb : needle.isPrefixOf (a :: (pre ++ needle ++ post)) with
      | false => rfl
      | true =>
        obtain ⟨t, ht⟩ := List.isPrefixOf_iff_prefix.mp hb
        have := hfirst [] t (by simpa using ht.symm)
        simp at this
    have ih2 := ih (fun pre2 post2 h2 => by
      have := hfirst (a :: pre2) post2 (by simp [List.append_assoc] at h2 ⊢; exact h2)
      simpa using this)
    have hstep : strstr (a :: (pre ++ needle ++ post)) needle
        = strstr (pre ++ needle ++ post) needle := by
      rw [strstr, hnot]
      rfl
    rw [List.cons_append, List.cons_append, hstep]
    exact ih2

theorem strstr_of_infix (pre needle post : CStr) :
    ∃ s, strstr (pre ++ needle ++ post) needle = some s := by
  induction pre with
  | nil =>
    have hp : needle.isPrefixOf (needle ++ post) = true :=
      List.isPrefixOf_iff_prefix.mpr ⟨post, rfl⟩
    cases hnp : needle ++ post with
    | nil =>
      rw [hnp] at hp
      exact ⟨[], by simp [strstr, hp, hnp]⟩
    | cons c cs =>
      rw [hnp] at hp
      exact ⟨c :: cs, by simp [strstr, hp, hnp]⟩
  | cons a pre ih =>
    cases hb : needle.isPrefixOf (a :: (pre ++ needle ++ post)) with
    | true =>
      exact ⟨a :: (pre ++ needle ++ post), by
        rw [List.cons_append, List.cons_append, strstr, hb]; rfl⟩
    | false =>
      obtain ⟨s, hs⟩ := ih
      exact ⟨s, by rw [List.cons_append, List.cons_append, strstr, hb]; exact hs⟩

theorem strstr_is_first {hay needle s : CStr} (h : strstr hay needle = some s)
    (pre2 post2 : CStr) (h2 : hay = pre2 ++ needle ++ post2) :
    hay.length - s.length ≤ pre2.length := by
  induction pre2 generalizing hay with
  | nil =>
    have hf := strstr_first [] needle post2 (fun _ _ _ => Nat.zero_le _)
    rw [← h2, h] at hf
    simp only [List.nil_append] at hf h2
    cases hf
    simp [h2]
  | cons a p ih =>
    subst h2
    cases hb : needle.isPrefixOf (a :: (p ++ needle ++ post2)) with
    | true =>
      rw [List.cons_append, List.cons_append, strstr, hb] at h
      simp only [if_true] at h
      cases h
      simp
    | false =>
      rw [List.cons_append, List.cons_append, strstr, hb] at h
      have := ih h rfl
      simp only [List.cons_append, List.length_cons] at this ⊢
      omega

theorem digitChar_toNat {d : Nat} (h : d < 10) : (digitChar d).toNat = 48 + d := by
  interval_cases d <;> rfl

theorem isdigit_digitChar {d : Nat} (h : d < 10) : isdigit (digitChar d) = true := by
  interval_cases d <;> rfl

theorem atoi_digits_stop (a : Nat) (rest : CStr)
    (hrest : ∀ c, rest.head? = some c → isdigit c = false) : atoi_digits a rest = a := by
  cases rest with
  | nil => rfl
  | cons c cs => simp [atoi_digits, hrest c rfl]

/-- What `toDigitsFuel` produces with enough fuel: a non-empty run of digit
characters, whose length is bounded by the size of the number and which the
digit loop of `atoi` reads back as the number. -/
theorem toDigitsFuel_spec : ∀ (fuel n : Nat) (acc : CStr), n < fuel →
    ∃ ds : CStr, toDigitsFuel fuel n acc = ds ++ acc ∧ ds ≠ []
      ∧ (∀ c ∈ ds, isdigit c = true)
      ∧ (∀ a rest, atoi_digits a (ds ++ rest) = atoi_digits (a * 10 ^ ds.length + n) rest)
      ∧ (∀ k, 0 < k → n < 10 ^ k → ds.length ≤ k) := by
  intro fuel
  induction fuel with
  | zero => intro n acc h; omega
  | succ fuel ih =>
    intro n acc hn
    by_cases h10 : n < 10
    · refine ⟨[digitChar n], by simp [toDigitsFuel, h10], by simp, ?_, ?_, ?_⟩
      · intro c hc
        simp only [List.mem_singleton] at hc
        subst hc
        exact isdigit_digitChar h10
      · intro a rest
        simp [atoi_digits, isdigit_digitChar h10, digitChar_toNat h10]
      · intro k hk _
        simpa using hk
    · have hlt : n / 10 < fuel := by omega
      have hmod : n % 10 < 10 := Nat.mod_lt _ (by decide)
      obtain ⟨ds, h1, h2, h3, h4, h5⟩ := ih (n / 10) (digitChar (n % 10) :: acc) hlt
      refine ⟨ds ++ [digitChar (n % 10)], by simp [toDigitsFuel, h10, h1], by simp, ?_, ?_, ?_⟩
      · intro c hc
        rcases List.mem_append.mp hc with hc | hc
        · exact h3 c hc
        · simp only [List.mem_singleton] at hc
          subst hc
          exact isdigit_digitChar hmod
      · intro a rest
        rw [List.append_assoc, h4]
        simp only [List.singleton_append, atoi_digits, isdigit_digitChar hmod,
          digitChar_toNat hmod, if_true, List.length_append, List.length_singleton]
        congr 1
        have := Nat.div_add_mod n 10
        rw [pow_succ]
        have e : 48 + n % 10 - 48 = n % 10 := by omega
        rw [e]
        nlinarith [this]
      · intro k hk hnk
        cases k with
        | zero => omega
        | succ k =>
          have hk0 : 0 < k := by
            rcases Nat.eq_zero_or_pos k with h0 | h0
            · subst h0; simp at hnk; omega
            · exact h0
          have : n / 10 < 10 ^ k := by
            rw [pow_succ] at hnk
            exact Nat.div_lt_of_lt_mul (by rw [Nat.mul_comm]; exact hnk)
          have := h5 k hk0 this
          simp only [List.length_append, List.length_singleton]
          omega

theorem fmt_u_spec (n : Nat) :
    ∃ ds : CStr, fmt_u n = ds ∧ ds ≠ []
      ∧ (∀ c ∈ ds, isdigit c = true)
      ∧ (∀ a rest, atoi_digits a (ds ++ rest) = atoi_digits (a * 10 ^ ds.length + n) rest)
      ∧ (∀ k, 0 < k → n < 10 ^ k → ds.length ≤ k) := by
  obtain ⟨ds, h1, h2⟩ := toDigitsFuel_spec (n + 1) n [] (Nat.lt_succ_self n)
  exact ⟨ds, by simpa [fmt_u] using h1, h2⟩

theorem fmt_u_length_le (n k : Nat) (hk : 0 < k) (hn : n < 10 ^ k) :
    (fmt_u n).length ≤ k := by
  obtain ⟨ds, h1, _, _, _, h5⟩ := fmt_u_spec n
  rw [h1]
  exact h5 k hk hn

theorem isdigit_not_sign {c : Char} (h : isdigit c = true) :
    isspace c = false ∧ c ≠ '-' ∧ c ≠ '+' := by
  refine ⟨?_, ?_, ?_⟩
  · cases hs : isspace c with
    | false => rfl
    | true =>
      simp only [isspace, Bool.or_eq_true, decide_eq_true_eq] at hs
      rcases hs with ((((hs | hs) | hs) | hs) | hs) | hs <;> subst hs <;> simp [isdigit] at h
  · intro hc; subst hc; simp [isdigit] at h
  · intro hc; subst hc; simp [isdigit] at h

theorem atoi_value_cons {c : Char} (cs : CStr) (hs : isspace c = false) :
    atoi_value (c :: cs)
      = if c = '-' then -(atoi_digits 0 cs : Int)
        else if c = '+' then (atoi_digits 0 cs : Int)
        else (atoi_digits 0 (c :: cs) : Int) := by
  simp [atoi_value, List.dropWhile_cons, hs]

theorem atoi_value_fmt_u (n : Nat) (rest : CStr)
    (hrest : ∀ c, rest.head? = some c → isdigit c = false) :
    atoi_value (fmt_u n ++ rest) = (n : Int) := by
  obtain ⟨ds, h1, h2, h3, h4, _⟩ := fmt_u_spec n
  rw [h1]
  cases ds with
  | nil => exact absurd rfl h2
  | cons c cs =>
    obtain ⟨hs, hm, hp⟩ := isdigit_not_sign (h3 c (List.mem_cons_self _ _))
    have hval := h4 0 rest
    rw [atoi_digits_stop _ rest hrest] at hval
    simp only [List.cons_append] at hval
    rw [List.cons_append, atoi_value_cons _ hs, if_neg hm, if_neg hp, hval]
    simp

theorem atoi_fmt_d (ovf : Int → Int) (z : Int) (hlo : INT_MIN ≤ z) (hhi : z ≤ INT_MAX)
    (rest : CStr) (hrest : ∀ c, rest.head? = some c → isdigit c = false) :
    atoi ovf (fmt_d z ++ rest) = z := by
  have hv : atoi_value (fmt_d z ++ rest) = z := by
    by_cases hz : z < 0
    · obtain ⟨ds, h1, h2, h3, h4, _⟩ := fmt_u_spec (-z).toNat
      have hval := h4 0 rest
      rw [atoi_digits_stop _ rest hrest] at hval
      have hsp : isspace '-' = false := by decide
      simp only [fmt_d, hz, if_true, List.cons_append]
      rw [atoi_value_cons _ hsp, if_pos rfl, h1, hval]
      simp
      omega
    · have := atoi_value_fmt_u z.toNat rest hrest
      simp only [fmt_d, hz, if_false]
      rw [this]
      omega
  simp only [atoi, hv]
  simp [hlo, hhi]

theorem fmt_d_length_le (z : Int) (hlo : INT_MIN ≤ z) (hhi : z ≤ INT_MAX) :
    (fmt_d z).length ≤ 11 := by
  unfold INT_MIN at hlo
  unfold INT_MAX at hhi
  by_cases hz : z < 0
  · have := fmt_u_length_le (-z).toNat 10 (by decide) (by omega)
    simp only [fmt_d, hz, if_true, List.length_cons]
    omega
  · have := fmt_u_length_le z.toNat 10 (by decide) (by omega)
    simp only [fmt_d, hz, if_false]
    omega

/-! ## The frame decoder -/

/-- Whenever the operation key is found, the copied operation string is
empty: after the 15-byte advance `type_start` still points at the quote that
ends the key text, which `strchr` finds at once. -/
theorem decode_request_type_of_found {message s : CStr}
    (h : strstr message KEY_REQUEST_TYPE = some s) :
    decode_request_type message = some [] := by
  obtain ⟨_, t, _, h2⟩ := strstr_some h
  subst h2
  unfold decode_request_type
  rw [h]
  simp [KEY_REQUEST_TYPE, strchr]

theorem decode_request_type_cases (message : CStr) :
    decode_request_type message = none ∨ decode_request_type message = some [] := by
  cases h : strstr message KEY_REQUEST_TYPE with
  | none => left; simp [decode_request_type, h]
  | some s => right; exact decode_request_type_of_found h

theorem select_handler_nil (pid : Int) : select_handler (some []) pid = none := by
  simp [select_handler, MSG_GET_PROCESSES, MSG_GET_SIMPLE_DETAILS, MSG_GET_DETAILED_DETAILS,
    MSG_SUSPEND_PROCESS]

theorem process_message_sends_nothing (env : Env) (hist : History) (client_socket : Int)
    (message : CStr) : process_message env hist client_socket message = (hist, []) := by
  unfold process_message dispatch
  rcases decode_request_type_cases message with h | h
  · rw [h]; rfl
  · rw [h, select_handler_nil]

/-- C1 (defect). The two scenario frames of the spec, `GetProcesses` with
provider pids 42, 7, 500 and `SuspendProcess` with `PID` 42, are answered by
no `socket_server_send` at all: `process_message` returns with an empty list
of sends, although the handlers would produce the expected texts. -/
theorem process_message_scenarios_unanswered :
    process_message env_three [] 5 "\x7b\"request_type\":\"GetProcesses\"\x7d".toList = ([], [])
    ∧ process_message env_three [] 5
        "\x7b\"request_type\":\"SuspendProcess\",\"PID\":42\x7d".toList = ([], [])
    ∧ handle_get_processes env_three
        = "\x7b\"request_type\":\"GetProcesses\",\"pids\":[42,7,500]\x7d".toList
    ∧ handle_suspend_process 42
        = "\x7b\"request_type\":\"SuspendProcess\",\"pid\":42,\"success\":false\x7d".toList := by
  refine ⟨?_, ?_, ?_, ?_⟩ <;> decide

/-- C2 (defect). For every frame that holds the operation key followed by a
value `v` and a closing double quote, the operation string extracted by
`process_message` is the empty string, whatever `v` is. -/
theorem decode_request_type_value_lost (pre v rest : CStr) :
    decode_request_type (pre ++ KEY_REQUEST_TYPE ++ (v ++ '"' :: rest)) = some [] := by
  obtain ⟨s, hs⟩ := strstr_of_infix pre KEY_REQUEST_TYPE (v ++ '"' :: rest)
  exact decode_request_type_of_found hs

/-- C4. A frame whose decoded operation string is none of the four labels
(in particular a frame without the operation key, whose operation pointer
stays null) selects no handler for any target value, and `process_message`
sends nothing and leaves the history store untouched. -/
theorem process_message_unknown_operation (env : Env) (hist : History) (client_socket : Int)
    (message : CStr)
    (h1 : decode_request_type message ≠ some MSG_GET_PROCESSES)
    (h2 : decode_request_type message ≠ some MSG_GET_SIMPLE_DETAILS)
    (h3 : decode_request_type message ≠ some MSG_GET_DETAILED_DETAILS)
    (h4 : decode_request_type message ≠ some MSG_SUSPEND_PROCESS) :
    (∀ pid, select_handler (decode_request_type message) pid = none)
    ∧ (∀ pid, dispatch env hist client_socket (decode_request_type message) pid = (hist, []))
    ∧ process_message env hist client_socket message = (hist, []) := by
  have key : ∀ pid, select_handler (decode_request_type message) pid = none := by
    intro pid
    cases hd : decode_request_type message with
    | none => rfl
    | some rt =>
      rw [hd] at h1 h2 h3 h4
      simp only [ne_eq, Option.some.injEq] at h1 h2 h3 h4
      simp [select_handler, h1, h2, h3, h4]
  refine ⟨key, ?_, ?_⟩
  · intro pid
    simp [dispatch, key pid]
  · simp [process_message, dispatch, key]

theorem process_message_unknown_operation_witness :
    process_message env_three [] 5 "\x7b\"request_type\":\"Reboot\",\"PID\":3\x7d".toList
      = ([], []) :=
  (process_message_unknown_operation env_three [] 5
    "\x7b\"request_type\":\"Reboot\",\"PID\":3\x7d".toList
    (by decide) (by decide) (by decide) (by decide)).2.2

theorem decode_pid_absent (ovf : Int → Int) (message : CStr)
    (h : ¬ KEY_PID <:+: message) : decode_pid ovf message = -1 := by
  simp [decode_pid, strstr_eq_none h]

theorem decode_pid_first (ovf : Int → Int) (pre rest : CStr) (z : Int)
    (hlo : INT_MIN ≤ z) (hhi : z ≤ INT_MAX)
    (hfirst : ∀ pre2 post2 : CStr,
      pre ++ KEY_PID ++ (fmt_d z ++ rest) = pre2 ++ KEY_PID ++ post2 →
        pre.length ≤ pre2.length)
    (hrest : ∀ c, rest.head? = some c → isdigit c = false) :
    decode_pid ovf (pre ++ KEY_PID ++ (fmt_d z ++ rest)) = z := by
  unfold decode_pid
  rw [strstr_first pre KEY_PID (fmt_d z ++ rest) hfirst]
  have : (KEY_PID ++ (fmt_d z ++ rest)).drop 6 = fmt_d z ++ rest := by
    simp [KEY_PID]
  simp only [this]
  exact atoi_fmt_d ovf z hlo hhi rest hrest

theorem dispatch_negative (env : Env) (hist : History) (client_socket : Int) (rt : CStr)
    (hrt : rt = MSG_GET_SIMPLE_DETAILS ∨ rt = MSG_GET_DETAILED_DETAILS
      ∨ rt = MSG_SUSPEND_PROCESS) (pid : Int) (hpid : pid < 0) :
    select_handler (some rt) pid = none
      ∧ dispatch env hist client_socket (some rt) pid = (hist, []) := by
  have hn : ¬ pid ≥ 0 := by omega
  have hs : select_handler (some rt) pid = none := by
    rcases hrt with h | h | h <;> subst h <;>
      simp [select_handler, hn, MSG_GET_PROCESSES, MSG_GET_SIMPLE_DETAILS,
        MSG_GET_DETAILED_DETAILS, MSG_SUSPEND_PROCESS]
  exact ⟨hs, by simp [dispatch, hs]⟩

theorem select_handler_negative (request_type : Option CStr) (pid : Int)
    (hop : request_type ≠ some MSG_GET_PROCESSES) (hpid : pid < 0) :
    select_handler request_type pid = none := by
  have hn : ¬ pid ≥ 0 := by omega
  cases request_type with
  | none => rfl
  | some rt =>
    have hne : rt ≠ MSG_GET_PROCESSES := fun h => hop (by rw [h])
    simp [select_handler, hne, hn]

/-- A missing or negative target. For every frame whose decoded operation
is not `GetProcesses` (in particular when it is `GetSimpleProcessDetails`,
`GetDetailedProcessDetails` or `SuspendProcess`) and which has no `"PID":`
key, so that the target stays -1, or whose decoded target is negative,
`process_message`, which is the dispatch of the two decoded fields, selects
no handler, sends nothing and leaves the history store untouched. A first
`"PID":` key followed by the digits of a negative `int` decodes to that
negative value; every negative target makes the three targeted operations
select no handler. The `GetProcesses` branch of the dispatcher tests no
target: a decoded operation `GetProcesses` selects `handle_get_processes`,
whose text is sent once, for every target. -/
theorem process_message_requires_target (env : Env) (hist : History) (client_socket : Int)
    (message : CStr)
    (hop : decode_request_type message ≠ some MSG_GET_PROCESSES)
    (hpid : ¬ KEY_PID <:+: message ∨ decode_pid env.atoi_ovf message < 0) :
    process_message env hist client_socket message
        = dispatch env hist client_socket (decode_request_type message)
            (decode_pid env.atoi_ovf message)
    ∧ (¬ KEY_PID <:+: message → decode_pid env.atoi_ovf message = -1)
    ∧ select_handler (decode_request_type message) (decode_pid env.atoi_ovf message) = none
    ∧ process_message env hist client_socket message = (hist, [])
    ∧ (∀ (pre rest : CStr) (z : Int), INT_MIN ≤ z → z < 0 →
        (∀ pre2 post2 : CStr,
          pre ++ KEY_PID ++ (fmt_d z ++ rest) = pre2 ++ KEY_PID ++ post2 →
            pre.length ≤ pre2.length) →
        (∀ c, rest.head? = some c → isdigit c = false) →
        decode_pid env.atoi_ovf (pre ++ KEY_PID ++ (fmt_d z ++ rest)) = z)
    ∧ (∀ (rt : CStr) (pid : Int),
        rt = MSG_GET_SIMPLE_DETAILS ∨ rt = MSG_GET_DETAILED_DETAILS
          ∨ rt = MSG_SUSPEND_PROCESS →
        pid < 0 →
        select_handler (some rt) pid = none
          ∧ dispatch env hist client_socket (some rt) pid = (hist, []))
    ∧ (∀ pid : Int,
        select_handler (some MSG_GET_PROCESSES) pid = some HandlerCall.get_processes
          ∧ dispatch env hist client_socket (some MSG_GET_PROCESSES) pid
              = (hist, [(client_socket, handle_get_processes env)])) := by
  have hneg : decode_pid env.atoi_ovf message < 0 := by
    rcases hpid with h | h
    · rw [decode_pid_absent env.atoi_ovf message h]
      decide
    · exact h
  have hsel := select_handler_negative (decode_request_type message)
    (decode_pid env.atoi_ovf message) hop hneg
  refine ⟨rfl, decode_pid_absent env.atoi_ovf message, hsel, ?_, ?_, ?_, ?_⟩
  · unfold process_message dispatch
    rw [hsel]
  · intro pre rest z hlo hz hfirst hrest
    exact decode_pid_first env.atoi_ovf pre rest z hlo (by unfold INT_MAX; omega) hfirst hrest
  · intro rt pid hrt hp
    exact dispatch_negative env hist client_socket rt hrt pid hp
  · intro pid
    have hs : select_handler (some MSG_GET_PROCESSES) pid = some HandlerCall.get_processes := by
      simp [select_handler]
    exact ⟨hs, by simp [dispatch, hs, run_handler]⟩

theorem process_message_requires_target_witness :
    process_message env_three [] 5 "\x7b\"request_type\":\"SuspendProcess\"\x7d".toList = ([], [])
    ∧ process_message env_three [] 5
        ("\x7b\"request_type\":\"SuspendProcess\",".toList ++ KEY_PID
          ++ (fmt_d (-5) ++ "\x7d".toList)) = ([], []) :=
  ⟨(process_message_requires_target env_three [] 5
      "\x7b\"request_type\":\"SuspendProcess\"\x7d".toList (by decide) (Or.inl (by decide))).2.2.2.1,
    (process_message_requires_target env_three [] 5
      ("\x7b\"request_type\":\"SuspendProcess\",".toList ++ KEY_PID
        ++ (fmt_d (-5) ++ "\x7d".toList)) (by decide) (Or.inr (by decide))).2.2.2.1⟩

/-- Remark on `atoi`. Where `atoi` wraps, the frame `{"PID":-4294967295}`
carries a negative numeral and decodes to the target 1, for which the
dispatcher, given the label `SuspendProcess`, selects
`handle_suspend_process`. -/
theorem decode_pid_wrapped_target :
    decode_pid env_wrap.atoi_ovf "\x7b\"PID\":-4294967295\x7d".toList = 1
    ∧ select_handler (some MSG_SUSPEND_PROCESS)
        (decode_pid env_wrap.atoi_ovf "\x7b\"PID\":-4294967295\x7d".toList)
        = some (HandlerCall.suspend_process 1)
    ∧ dispatch env_wrap [] 5 (some MSG_SUSPEND_PROCESS)
        (decode_pid env_wrap.atoi_ovf "\x7b\"PID\":-4294967295\x7d".toList)
        = ([], [(5, handle_suspend_process 1)]) := by
  decide

/-- C5 (defect). `process_message` dispatches no `GetProcesses` request. For
every frame that carries the operation key with the value `GetProcesses`,
whatever stands before the key and after the value (a `"PID":` key or none),
the decoded operation is the empty string, no handler is selected and
nothing is sent; yet the `GetProcesses` branch of the dispatcher, given that
label, selects `handle_get_processes` for every target and sends its text
once. With the provider pids 42, 7, 500 the frames
`{"request_type":"GetProcesses"}` and `{"request_type":"GetProcesses","PID":42}`
are answered by nothing, where the handler text is
`{"request_type":"GetProcesses","pids":[42,7,500]}`. Silence on a missing
target is not what fails: no frame at all makes `process_message` send. -/
theorem process_message_get_processes_undispatched (env : Env) (hist : History)
    (client_socket : Int) (pre rest : CStr) :
    decode_request_type (pre ++ KEY_REQUEST_TYPE ++ (MSG_GET_PROCESSES ++ '"' :: rest))
        = some []
    ∧ select_handler
        (decode_request_type (pre ++ KEY_REQUEST_TYPE ++ (MSG_GET_PROCESSES ++ '"' :: rest)))
        (decode_pid env.atoi_ovf (pre ++ KEY_REQUEST_TYPE ++ (MSG_GET_PROCESSES ++ '"' :: rest)))
        = none
    ∧ process_message env hist client_socket
        (pre ++ KEY_REQUEST_TYPE ++ (MSG_GET_PROCESSES ++ '"' :: rest)) = (hist, [])
    ∧ (∀ pid : Int,
        select_handler (some MSG_GET_PROCESSES) pid = some HandlerCall.get_processes
          ∧ dispatch env hist client_socket (some MSG_GET_PROCESSES) pid
              = (hist, [(client_socket, handle_get_processes env)]))
    ∧ process_message env_three [] 5 "\x7b\"request_type\":\"GetProcesses\"\x7d".toList = ([], [])
    ∧ process_message env_three [] 5 "\x7b\"request_type\":\"GetProcesses\",\"PID\":42\x7d".toList
        = ([], [])
    ∧ handle_get_processes env_three
        = "\x7b\"request_type\":\"GetProcesses\",\"pids\":[42,7,500]\x7d".toList
    ∧ (∀ message : CStr, process_message env hist client_socket message = (hist, [])) := by
  have hd : decode_request_type
      (pre ++ KEY_REQUEST_TYPE ++ (MSG_GET_PROCESSES ++ '"' :: rest)) = some [] := by
    obtain ⟨t, ht⟩ := strstr_of_infix pre KEY_REQUEST_TYPE (MSG_GET_PROCESSES ++ '"' :: rest)
    exact decode_request_type_of_found ht
  refine ⟨hd, ?_, process_message_sends_nothing env hist client_socket _, ?_, by decide,
    by decide, by decide, process_message_sends_nothing env hist client_socket⟩
  · rw [hd]
    exact select_handler_nil _
  · intro pid
    have hs : select_handler (some MSG_GET_PROCESSES) pid = some HandlerCall.get_processes := by
      simp [select_handler]
    exact ⟨hs, by simp [dispatch, hs, run_handler]⟩

/-- C6. If the first occurrence of the key text `"PID":` in a frame is
followed by the decimal digits of an integer `n` with `0 ≤ n ≤ 2^31 - 1` and
then by a byte that is not a digit (or by the end of the frame), the decoded
target is `n`, whatever stands before the key and after the number; if the
key text does not occur in the frame the decoded target is -1. -/
theorem decode_pid_target (ovf : Int → Int) :
    (∀ (pre rest : CStr) (n : Int), 0 ≤ n → n ≤ 2 ^ 31 - 1 →
      (∀ pre2 post2 : CStr,
        pre ++ KEY_PID ++ (fmt_d n ++ rest) = pre2 ++ KEY_PID ++ post2 →
          pre.length ≤ pre2.length) →
      (∀ c, rest.head? = some c → isdigit c = false) →
      decode_pid ovf (pre ++ KEY_PID ++ (fmt_d n ++ rest)) = n)
    ∧ (∀ message : CStr, ¬ KEY_PID <:+: message → decode_pid ovf message = -1) := by
  refine ⟨?_, ?_⟩
  · intro pre rest n h0 hmax hfirst hrest
    exact decode_pid_first ovf pre rest n (by unfold INT_MIN; omega)
      (by unfold INT_MAX; omega) hfirst hrest
  · intro message hno
    exact decode_pid_absent ovf message hno

theorem decode_pid_target_witness :
    decode_pid (fun _ => 0)
        ("\x7b\"request_type\":\"SuspendProcess\",".toList ++ KEY_PID
          ++ (fmt_d 42 ++ "\x7d".toList)) = 42
    ∧ decode_pid (fun _ => 0)
        ("\x7b".toList ++ KEY_PID ++ (fmt_d 2147483647 ++ ",\"request_type\":\"X\"\x7d".toList))
        = 2147483647
    ∧ decode_pid (fun _ => 0) "\x7b\"request_type\":\"SuspendProcess\"\x7d".toList = -1 :=
  ⟨(decode_pid_target (fun _ => 0)).1 "\x7b\"request_type\":\"SuspendProcess\",".toList
      "\x7d".toList 42 (by decide) (by decide)
      (fun pre2 post2 heq => by
        have := strstr_is_first
          (by decide : strstr ("\x7b\"request_type\":\"SuspendProcess\",".toList ++ KEY_PID
              ++ (fmt_d 42 ++ "\x7d".toList)) KEY_PID
            = some (KEY_PID ++ (fmt_d 42 ++ "\x7d".toList))) pre2 post2 heq
        exact this)
      (by decide),
    (decode_pid_target (fun _ => 0)).1 "\x7b".toList ",\"request_type\":\"X\"\x7d".toList
      2147483647 (by decide) (by decide)
      (fun pre2 post2 heq => by
        have := strstr_is_first
          (by decide : strstr ("\x7b".toList ++ KEY_PID
              ++ (fmt_d 2147483647 ++ ",\"request_type\":\"X\"\x7d".toList)) KEY_PID
            = some (KEY_PID ++ (fmt_d 2147483647 ++ ",\"request_type\":\"X\"\x7d".toList)))
          pre2 post2 heq
        exact this)
      (by decide),
    (decode_pid_target (fun _ => 0)).2 "\x7b\"request_type\":\"SuspendProcess\"\x7d".toList
      (by decide)⟩

/-! ## The response encoder -/

theorem escaped_form_cons (c : Char) (cs : CStr) :
    escaped_form (c :: cs) = escape_char c ++ escaped_form cs := by
  simp [escaped_form]

theorem json_escape_loop_fits (lim1 lim2 : Nat) (hlim : lim2 + 1 = lim1) :
    ∀ (s dest : CStr), dest.length + (escaped_form s).length ≤ lim1 →
      json_escape_loop lim1 lim2 s dest = dest ++ escaped_form s := by
  intro s
  induction s with
  | nil => intro dest _; simp [json_escape_loop, escaped_form]
  | cons c cs ih =>
    intro dest hfit
    rw [escaped_form_cons] at hfit ⊢
    by_cases hq : c = '"' ∨ c = '\\'
    · have he : escape_char c = ['\\', c] := by
        rcases hq with h | h <;> subst h <;> rfl
      rw [he] at hfit ⊢
      simp only [List.length_append, List.length_cons, List.length_nil] at hfit
      have h1 : dest.length < lim1 := by omega
      have h2 : dest.length < lim2 := by omega
      rw [json_escape_loop, if_pos h1, if_pos hq, if_pos h2, ih _ (by simp; omega)]
      simp
    · have hq1 : c ≠ '"' := fun h => hq (Or.inl h)
      have hq2 : c ≠ '\\' := fun h => hq (Or.inr h)
      by_cases hn : c = '\n'
      · have he : escape_char c = ['\\', 'n'] := by subst hn; rfl
        rw [he] at hfit ⊢
        simp only [List.length_append, List.length_cons, List.length_nil] at hfit
        have h1 : dest.length < lim1 := by omega
        have h2 : dest.length < lim2 := by omega
        rw [json_escape_loop, if_pos h1, if_neg hq, if_pos hn, if_pos h2,
          ih _ (by simp; omega)]
        simp
      · have he : escape_char c = [c] := by simp [escape_char, hq1, hq2, hn]
        rw [he] at hfit ⊢
        simp only [List.length_append, List.length_cons, List.length_nil] at hfit
        have h1 : dest.length < lim1 := by omega
        rw [json_escape_loop, if_pos h1, if_neg hq, if_neg hn, ih _ (by simp; omega)]
        simp

theorem json_unescape_escaped_form (s : CStr) : json_unescape (escaped_form s) = s := by
  induction s with
  | nil => rfl
  | cons c cs ih =>
    rw [escaped_form_cons]
    by_cases h1 : c = '"'
    · subst h1
      show json_unescape ('\\' :: '"' :: escaped_form cs) = _
      rw [json_unescape, if_pos rfl, if_neg (by decide), ih]
    · by_cases h2 : c = '\\'
      · subst h2
        show json_unescape ('\\' :: '\\' :: escaped_form cs) = _
        rw [json_unescape, if_pos rfl, if_neg (by decide), ih]
      · by_cases h3 : c = '\n'
        · subst h3
          show json_unescape ('\\' :: 'n' :: escaped_form cs) = _
          rw [json_unescape, if_pos rfl, if_pos rfl, ih]
        · have he : escape_char c = [c] := by simp [escape_char, h1, h2, h3]
          rw [he]
          cases hcs : escaped_form cs with
          | nil =>
            rw [hcs] at ih
            simp only [List.singleton_append]
            rw [json_unescape]
            have : cs = [] := by
              rw [← ih]; rfl
            rw [this]
          | cons d ds =>
            rw [hcs] at ih
            simp only [List.singleton_append]
            rw [json_unescape, if_neg h2, ih]

/-- C7. For a source string whose fully escaped form has at most
`dest_size - 1` bytes, `json_escape_string` leaves in `dest` exactly the
character-wise image of the source (double quote to backslash and double
quote, backslash to two backslashes, newline to backslash and `n`, any other
byte unchanged), and reading the escapes back returns the source. -/
theorem json_escape_string_exact (src : CStr) (dest_size : Nat)
    (hsize : dest_size < SIZE_MOD)
    (hfit : (escaped_form src).length ≤ dest_size - 1) :
    json_escape_string src dest_size = escaped_form src
      ∧ json_unescape (json_escape_string src dest_size) = src := by
  have key : json_escape_string src dest_size = escaped_form src := by
    cases src with
    | nil => simp [json_escape_string, json_escape_loop, escaped_form]
    | cons c cs =>
      have hpos : 1 ≤ (escaped_form (c :: cs)).length := by
        rw [escaped_form_cons]
        have : 1 ≤ (escape_char c).length := by
          unfold escape_char
          split_ifs <;> simp
        simp only [List.length_append]
        omega
      have h2 : 2 ≤ dest_size := by omega
      unfold SIZE_MOD at hsize
      have e1 : (dest_size + SIZE_MOD - 1) % SIZE_MOD = dest_size - 1 := by
        unfold SIZE_MOD; omega
      have e2 : (dest_size + SIZE_MOD - 2) % SIZE_MOD = dest_size - 2 := by
        unfold SIZE_MOD; omega
      unfold json_escape_string
      rw [e1, e2, json_escape_loop_fits (dest_size - 1) (dest_size - 2) (by omega) _ []
        (by simpa using hfit)]
      simp
  exact ⟨key, by rw [key, json_unescape_escaped_form]⟩

theorem json_escape_string_exact_witness :
    json_escape_string "a\"b\\c\nd".toList 256 = "a\\\"b\\\\c\\nd".toList
      ∧ json_unescape (json_escape_string "a\"b\\c\nd".toList 256) = "a\"b\\c\nd".toList :=
  json_escape_string_exact "a\"b\\c\nd".toList 256 (by decide) (by decide)

/-! ## `handle_get_processes` -/

theorem to_size_t_of_nonneg (z : Int) (h0 : 0 ≤ z) (h1 : z < 2 ^ 64) :
    to_size_t z = z.toNat := by
  unfold to_size_t SIZE_MOD
  rw [Int.emod_eq_of_lt h0 (by simpa using h1)]

theorem pids_text_cons_cons (p q : proc_info_t) (l : List proc_info_t) :
    pids_text (p :: q :: l) = fmt_d p.pid ++ [','] ++ pids_text (q :: l) := by
  simp [pids_text, List.intercalate, List.intersperse]

theorem pids_text_single (p : proc_info_t) : pids_text [p] = fmt_d p.pid := by
  simp [pids_text, List.intercalate, List.intersperse]

theorem snprintf_at_fits (response : CStr) (offset : Nat) (text : CStr)
    (hlen : response.length = offset) (hfit : offset + text.length < JSON_BUFFER_SIZE) :
    snprintf_at response offset (to_size_t ((JSON_BUFFER_SIZE : Int) - (offset : Int))) text
      = (response ++ text, text.length) := by
  unfold JSON_BUFFER_SIZE at hfit
  have hsz : to_size_t ((JSON_BUFFER_SIZE : Int) - (offset : Int)) = 8192 - offset := by
    rw [to_size_t_of_nonneg _ (by unfold JSON_BUFFER_SIZE; omega)
      (by unfold JSON_BUFFER_SIZE; omega)]
    unfold JSON_BUFFER_SIZE; omega
  have hne : ¬ (8192 - offset = 0) := by omega
  unfold snprintf_at
  rw [hsz, if_neg hne, ← hlen, List.take_length, List.take_of_length_le (by omega)]

/-- One iteration of the loop whose text fits the rest of the buffer. -/
theorem get_processes_loop_step (p : proc_info_t) (rest : List proc_info_t)
    (response : CStr) (offset : Nat) (hlen : response.length = offset)
    (hfit : offset
      + (if rest.length > 0 then fmt_d p.pid ++ [','] else fmt_d p.pid).length
        < JSON_BUFFER_SIZE) :
    get_processes_loop response offset (p :: rest)
      = get_processes_loop
          (response ++ (if rest.length > 0 then fmt_d p.pid ++ [','] else fmt_d p.pid))
          (offset + (if rest.length > 0 then fmt_d p.pid ++ [','] else fmt_d p.pid).length)
          rest := by
  rw [get_processes_loop]
  simp only [snprintf_at_fits response offset _ hlen hfit]
  have hnt : ¬ ((((if rest.length > 0 then fmt_d p.pid ++ [','] else fmt_d p.pid).length : Nat)
      : Int) ≥ (JSON_BUFFER_SIZE : Int) - (offset : Int)) := by
    omega
  rw [if_neg hnt]

/-- While the texts fit, the loop appends the comma-separated pids and
advances the offset by their length. -/
theorem get_processes_loop_fits : ∀ (l : List proc_info_t) (response : CStr) (offset : Nat),
    response.length = offset → offset + (pids_text l).length < JSON_BUFFER_SIZE →
    get_processes_loop response offset l
      = (response ++ pids_text l, offset + (pids_text l).length) := by
  intro l
  induction l with
  | nil =>
    intro response offset _ _
    simp [get_processes_loop, pids_text, List.intercalate]
  | cons p rest ih =>
    intro response offset hlen hfit
    cases rest with
    | nil =>
      rw [pids_text_single] at hfit ⊢
      rw [get_processes_loop_step p [] response offset hlen (by simpa using hfit)]
      simp [get_processes_loop]
    | cons q rest2 =>
      rw [pids_text_cons_cons] at hfit ⊢
      have hpos : (q :: rest2).length > 0 := by simp
      have hfit2 : offset + (fmt_d p.pid ++ [',']).length < JSON_BUFFER_SIZE := by
        simp only [List.length_append] at hfit ⊢
        omega
      rw [get_processes_loop_step p (q :: rest2) response offset hlen
        (by rw [if_pos hpos]; exact hfit2)]
      rw [if_pos hpos]
      rw [ih (response ++ (fmt_d p.pid ++ [','])) _
        (by rw [List.length_append, hlen])
        (by simp only [List.length_append] at hfit ⊢; omega)]
      simp only [List.length_append, List.append_assoc, Nat.add_assoc]

theorem pids_text_length_le (l : List proc_info_t)
    (h : ∀ p ∈ l, INT_MIN ≤ p.pid ∧ p.pid ≤ INT_MAX) :
    (pids_text l).length ≤ 12 * l.length := by
  induction l with
  | nil => simp [pids_text, List.intercalate]
  | cons p rest ih =>
    have hp := h p (List.mem_cons_self _ _)
    have hl := fmt_d_length_le p.pid hp.1 hp.2
    have ih2 := ih (fun q hq => h q (List.mem_cons_of_mem _ hq))
    cases rest with
    | nil => rw [pids_text_single]; simp only [List.length_cons, List.length_nil]; omega
    | cons q rest2 =>
      rw [pids_text_cons_cons]
      simp only [List.length_append, List.length_cons, List.length_nil] at ih2 ⊢
      omega

theorem get_processes_header_eq :
    "\x7b\"request_type\":\"".toList ++ MSG_GET_PROCESSES ++ "\",\"pids\":[".toList
      = get_processes_header := by decide

theorem get_processes_state_fits (env : Env) (hok : env.collect_ret ≥ 0)
    (hfit : 39 + (pids_text env.proc_list).length < JSON_BUFFER_SIZE) :
    get_processes_state env
      = (get_processes_header ++ pids_text env.proc_list,
          39 + (pids_text env.proc_list).length) := by
  unfold get_processes_state
  rw [get_processes_header_eq]
  have h0 : snprintf_at [] 0 JSON_BUFFER_SIZE get_processes_header
      = (get_processes_header, 39) := by decide
  rw [h0, if_pos hok]
  exact get_processes_loop_fits env.proc_list get_processes_header 39 (by decide) hfit

/-- C3. After a successful refresh with at most `MAX_PROCS` processes, whose
pids are `int` values, `handle_get_processes` returns exactly the header
`{"request_type":"GetProcesses","pids":[`, the decimal pids of all provider
entries in provider order separated by commas, and the closing `]}`. -/
theorem handle_get_processes_exact (env : Env) (hok : env.collect_ret ≥ 0)
    (hcount : env.proc_list.length ≤ MAX_PROCS)
    (hpid : ∀ p ∈ env.proc_list, INT_MIN ≤ p.pid ∧ p.pid ≤ INT_MAX) :
    handle_get_processes env
      = "\x7b\"request_type\":\"GetProcesses\",\"pids\":[".toList
        ++ List.intercalate [','] (env.proc_list.map (fun p => fmt_d p.pid))
        ++ "]\x7d".toList := by
  have hlen := pids_text_length_le env.proc_list hpid
  unfold MAX_PROCS at hcount
  have hfit : 39 + (pids_text env.proc_list).length < JSON_BUFFER_SIZE := by
    unfold JSON_BUFFER_SIZE; omega
  have hst := get_processes_state_fits env hok hfit
  unfold handle_get_processes
  rw [hst]
  have hsz : to_size_t ((JSON_BUFFER_SIZE : Int) - ((39 + (pids_text env.proc_list).length : Nat) : Int))
      = 8192 - (39 + (pids_text env.proc_list).length) := by
    rw [to_size_t_of_nonneg _ (by unfold JSON_BUFFER_SIZE; omega)
      (by unfold JSON_BUFFER_SIZE; omega)]
    unfold JSON_BUFFER_SIZE; omega
  simp only [hsz, snprintf_at]
  have hne : ¬ (8192 - (39 + (pids_text env.proc_list).length) = 0) := by omega
  rw [if_neg hne]
  have hl : (get_processes_header ++ pids_text env.proc_list).length
      = 39 + (pids_text env.proc_list).length := by
    rw [List.length_append]; rfl
  rw [← hl, List.take_length, List.take_of_length_le (by
    rw [hl]
    have : ("]\x7d".toList).length = 2 := by decide
    omega)]
  rfl

theorem handle_get_processes_exact_witness :
    handle_get_processes env_three
      = "\x7b\"request_type\":\"GetProcesses\",\"pids\":[42,7,500]\x7d".toList :=
  handle_get_processes_exact env_three (by decide) (by decide) (by decide)

theorem snprintf_at_length_le (response : CStr) (offset : Nat) (text : CStr)
    (hoff : offset < JSON_BUFFER_SIZE) :
    (snprintf_at response offset (to_size_t ((JSON_BUFFER_SIZE : Int) - (offset : Int)))
      text).1.length ≤ JSON_BUFFER_SIZE - 1 := by
  unfold JSON_BUFFER_SIZE at hoff
  have hsz : to_size_t ((JSON_BUFFER_SIZE : Int) - (offset : Int)) = 8192 - offset := by
    rw [to_size_t_of_nonneg _ (by unfold JSON_BUFFER_SIZE; omega)
      (by unfold JSON_BUFFER_SIZE; omega)]
    unfold JSON_BUFFER_SIZE; omega
  have hne : ¬ (8192 - offset = 0) := by omega
  unfold snprintf_at
  rw [hsz, if_neg hne]
  have h1 := List.length_take_le offset response
  have h2 := List.length_take_le (8192 - offset - 1) text
  simp only [List.length_append]
  unfold JSON_BUFFER_SIZE
  omega

/-- Invariant of the loop of `handle_get_processes`: from a state whose
offset is below `JSON_BUFFER_SIZE` the loop ends in such a state, never moves
the offset back, and the buffer content never exceeds
`JSON_BUFFER_SIZE - 1` bytes. -/
theorem get_processes_loop_bounded : ∀ (l : List proc_info_t) (response : CStr) (offset : Nat),
    offset < JSON_BUFFER_SIZE → response.length ≤ JSON_BUFFER_SIZE - 1 →
    (get_processes_loop response offset l).2 < JSON_BUFFER_SIZE
      ∧ (get_processes_loop response offset l).1.length ≤ JSON_BUFFER_SIZE - 1
      ∧ offset ≤ (get_processes_loop response offset l).2 := by
  intro l
  induction l with
  | nil =>
    intro response offset hoff hlen
    simp only [get_processes_loop]
    exact ⟨hoff, hlen, Nat.le_refl _⟩
  | cons p rest ih =>
    intro response offset hoff hlen
    rw [get_processes_loop]
    have hb := snprintf_at_length_le response offset
      (if rest.length > 0 then fmt_d p.pid ++ [','] else fmt_d p.pid) hoff
    by_cases ht : (((snprintf_at response offset
        (to_size_t ((JSON_BUFFER_SIZE : Int) - (offset : Int)))
        (if rest.length > 0 then fmt_d p.pid ++ [','] else fmt_d p.pid)).2 : Nat) : Int)
          ≥ (JSON_BUFFER_SIZE : Int) - (offset : Int)
    · simp only [ht, if_true]
      exact ⟨hoff, hb, Nat.le_refl _⟩
    · simp only [ht, if_false]
      have hoff2 : offset + (snprintf_at response offset
          (to_size_t ((JSON_BUFFER_SIZE : Int) - (offset : Int)))
          (if rest.length > 0 then fmt_d p.pid ++ [','] else fmt_d p.pid)).2
            < JSON_BUFFER_SIZE := by
        omega
      obtain ⟨h1, h2, h3⟩ := ih _ _ hoff2 hb
      exact ⟨h1, h2, by omega⟩

/-- C9. For every process list, of any length and with any pids, the
running offset of `handle_get_processes` stays below `JSON_BUFFER_SIZE`, the
buffer content before the closing write has at most `JSON_BUFFER_SIZE - 1`
bytes, and so has the response text returned: with its terminator it fits
the 8192-byte buffer. -/
theorem handle_get_processes_bounded (env : Env) :
    (handle_get_processes env).length ≤ JSON_BUFFER_SIZE - 1
      ∧ (handle_get_processes env).length ≤ 8191
      ∧ (get_processes_state env).2 < JSON_BUFFER_SIZE
      ∧ (get_processes_state env).1.length ≤ JSON_BUFFER_SIZE - 1 := by
  have hst : (get_processes_state env).2 < JSON_BUFFER_SIZE
      ∧ (get_processes_state env).1.length ≤ JSON_BUFFER_SIZE - 1 := by
    unfold get_processes_state
    rw [get_processes_header_eq]
    have h0 : snprintf_at [] 0 JSON_BUFFER_SIZE get_processes_header
        = (get_processes_header, 39) := by decide
    rw [h0]
    by_cases hok : env.collect_ret ≥ 0
    · rw [if_pos hok]
      obtain ⟨h1, h2, _⟩ := get_processes_loop_bounded env.proc_list get_processes_header 39
        (by decide) (by decide)
      exact ⟨h1, h2⟩
    · rw [if_neg hok]
      exact ⟨by decide, by decide⟩
  have hresp : (handle_get_processes env).length ≤ JSON_BUFFER_SIZE - 1 := by
    unfold handle_get_processes
    exact snprintf_at_length_le _ _ _ hst.1
  exact ⟨hresp, hresp, hst.1, hst.2⟩

theorem pids_text_cons_of_ne_nil (p : proc_info_t) (l : List proc_info_t) (h : l ≠ []) :
    pids_text (p :: l) = fmt_d p.pid ++ [','] ++ pids_text l := by
  cases l with
  | nil => exact absurd rfl h
  | cons q l2 => exact pids_text_cons_cons p q l2

theorem pids_text_replicate_length (n : Nat) (p q : proc_info_t) :
    (pids_text (List.replicate n p ++ [q])).length
        = n * ((fmt_d p.pid).length + 1) + (fmt_d q.pid).length
      ∧ ∃ front, pids_text (List.replicate n p ++ [q]) = front ++ fmt_d q.pid := by
  induction n with
  | zero =>
    simp only [List.replicate_zero, List.nil_append, pids_text_single]
    exact ⟨by omega, [], rfl⟩
  | succ n ih =>
    obtain ⟨ih1, front, ih2⟩ := ih
    rw [List.replicate_succ, List.cons_append, pids_text_cons_of_ne_nil _ _ (by simp)]
    refine ⟨?_, fmt_d p.pid ++ [','] ++ front, by rw [ih2]; simp⟩
    simp only [List.length_append, List.length_cons, List.length_nil, ih1]
    ring

theorem get_processes_loop_leading : ∀ (l1 l2 : List proc_info_t) (response : CStr)
    (offset : Nat), l2 ≠ [] → response.length = offset →
    offset + (pids_with_commas l1).length < JSON_BUFFER_SIZE →
    get_processes_loop response offset (l1 ++ l2)
      = get_processes_loop (response ++ pids_with_commas l1)
          (offset + (pids_with_commas l1).length) l2 := by
  intro l1
  induction l1 with
  | nil =>
    intro l2 response offset _ _ _
    simp [pids_with_commas]
  | cons p l1 ih =>
    intro l2 response offset hne hlen hfit
    have hpos : (l1 ++ l2).length > 0 := by
      cases l2 with
      | nil => exact absurd rfl hne
      | cons q l3 => simp
    have hc : pids_with_commas (p :: l1) = fmt_d p.pid ++ [','] ++ pids_with_commas l1 := by
      simp [pids_with_commas]
    rw [hc] at hfit ⊢
    simp only [List.length_append] at hfit
    rw [List.cons_append, get_processes_loop_step p (l1 ++ l2) response offset hlen
      (by rw [if_pos hpos, List.length_append]; omega)]
    rw [if_pos hpos, ih l2 (response ++ (fmt_d p.pid ++ [','])) _ hne
      (by rw [List.length_append, hlen])
      (by simp only [List.length_append]; omega)]
    simp only [List.length_append, List.append_assoc, Nat.add_assoc]

/-- An iteration whose text does not fit: the loop stops and leaves the
offset where it was, with the clipped text behind it. -/
theorem get_processes_loop_break (p : proc_info_t) (rest : List proc_info_t)
    (response : CStr) (offset : Nat) (hlen : response.length = offset)
    (hoff : offset < JSON_BUFFER_SIZE)
    (hbig : JSON_BUFFER_SIZE
      ≤ offset + (if rest.length > 0 then fmt_d p.pid ++ [','] else fmt_d p.pid).length) :
    get_processes_loop response offset (p :: rest)
      = (response ++ (if rest.length > 0 then fmt_d p.pid ++ [','] else fmt_d p.pid).take
          (JSON_BUFFER_SIZE - offset - 1), offset) := by
  have hsz : to_size_t ((JSON_BUFFER_SIZE : Int) - (offset : Int))
      = JSON_BUFFER_SIZE - offset := by
    rw [to_size_t_of_nonneg _ (by omega) (by unfold JSON_BUFFER_SIZE; omega)]
    omega
  rw [get_processes_loop]
  simp only [snprintf_at, hsz]
  have ht : (((if rest.length > 0 then fmt_d p.pid ++ [','] else fmt_d p.pid).length : Nat)
      : Int) ≥ (JSON_BUFFER_SIZE : Int) - (offset : Int) := by
    omega
  rw [if_pos ht, if_neg (by omega), ← hlen, List.take_length]

theorem take_replicate_append (n : Nat) (p : proc_info_t) (l : List proc_info_t) :
    (List.replicate n p ++ l).take n = List.replicate n p := by
  have h := List.take_left (List.replicate n p) l
  rwa [List.length_replicate] at h

theorem pids_with_commas_replicate (n : Nat) (p : proc_info_t) :
    (pids_with_commas (List.replicate n p)).length = n * ((fmt_d p.pid).length + 1)
      ∧ (0 < n → ∃ front, pids_with_commas (List.replicate n p) = front ++ [',']) := by
  induction n with
  | zero => simp [pids_with_commas]
  | succ n ih =>
    have hc : pids_with_commas (List.replicate (n + 1) p)
        = fmt_d p.pid ++ [','] ++ pids_with_commas (List.replicate n p) := by
      simp [pids_with_commas, List.replicate_succ]
    rw [hc]
    refine ⟨by simp only [List.length_append, List.length_cons, List.length_nil, ih.1]; ring,
      fun _ => ?_⟩
    rcases Nat.eq_zero_or_pos n with h0 | h0
    · subst h0
      exact ⟨fmt_d p.pid, by simp [pids_with_commas]⟩
    · obtain ⟨front, hf⟩ := ih.2 h0
      exact ⟨fmt_d p.pid ++ [','] ++ front, by rw [hf]; simp⟩

theorem fmt_d_proc_wide_length : (fmt_d proc_wide.pid).length = 9 := by decide

theorem env_truncated_list : env_truncated.proc_list
    = List.replicate 815 proc_wide ++ (proc_wide :: List.replicate 184 proc_wide) := by
  rw [← List.replicate_succ, List.append_replicate_replicate]
  rfl

theorem pids_with_commas_wide_length :
    (pids_with_commas (List.replicate 815 proc_wide)).length = 815 * (9 + 1) := by
  have h := (pids_with_commas_replicate 815 proc_wide).1
  rw [fmt_d_proc_wide_length] at h
  exact h

/-- The state of `handle_get_processes` before the closing write, for the
1000 processes of `env_truncated`: 815 entries were written, each with its
comma, the 816th was clipped to two bytes, and the offset stands at 8189. -/
theorem get_processes_state_truncated :
    get_processes_state env_truncated
      = (get_processes_header ++ pids_with_commas (List.replicate 815 proc_wide)
          ++ (fmt_d proc_wide.pid ++ [',']).take 2, 8189) := by
  have h1 : get_processes_state env_truncated
      = get_processes_loop get_processes_header 39
          (List.replicate 815 proc_wide ++ (proc_wide :: List.replicate 184 proc_wide)) := by
    unfold get_processes_state
    rw [get_processes_header_eq]
    have h0 : snprintf_at [] 0 JSON_BUFFER_SIZE get_processes_header
        = (get_processes_header, 39) := by decide
    have hok : env_truncated.collect_ret ≥ 0 := by decide
    rw [h0, if_pos hok, env_truncated_list]
  have h2 : get_processes_loop get_processes_header 39
      (List.replicate 815 proc_wide ++ (proc_wide :: List.replicate 184 proc_wide))
      = get_processes_loop
          (get_processes_header ++ pids_with_commas (List.replicate 815 proc_wide))
          (39 + 815 * (9 + 1)) (proc_wide :: List.replicate 184 proc_wide) := by
    rw [get_processes_loop_leading _ _ get_processes_header 39 (by simp) (by decide)
      (by rw [pids_with_commas_wide_length]; decide)]
    rw [pids_with_commas_wide_length]
  have h3 : get_processes_loop
      (get_processes_header ++ pids_with_commas (List.replicate 815 proc_wide))
      (39 + 815 * (9 + 1)) (proc_wide :: List.replicate 184 proc_wide)
      = (get_processes_header ++ pids_with_commas (List.replicate 815 proc_wide)
          ++ (fmt_d proc_wide.pid ++ [',']).take 2, 39 + 815 * (9 + 1)) := by
    rw [get_processes_loop_break _ _ _ _
      (by rw [List.length_append, pids_with_commas_wide_length]; decide)
      (by decide)
      (by simp only [List.length_replicate]
          rw [if_pos (by decide), List.length_append, fmt_d_proc_wide_length]; decide)]
    simp only [List.length_replicate]
    rw [if_pos (by decide)]
    rfl
  rw [h1, h2, h3]

theorem handle_get_processes_truncated :
    handle_get_processes env_truncated
      = get_processes_header ++ pids_with_commas (List.replicate 815 proc_wide)
        ++ "]\x7d".toList := by
  unfold handle_get_processes
  rw [get_processes_state_truncated]
  have hsz : to_size_t ((JSON_BUFFER_SIZE : Int) - ((8189 : Nat) : Int)) = 3 := by decide
  have hl : (get_processes_header ++ pids_with_commas (List.replicate 815 proc_wide)).length
      = 8189 := by
    rw [List.length_append, pids_with_commas_wide_length]; rfl
  show (snprintf_at (get_processes_header ++ pids_with_commas (List.replicate 815 proc_wide)
      ++ (fmt_d proc_wide.pid ++ [',']).take 2) 8189
      (to_size_t ((JSON_BUFFER_SIZE : Int) - ((8189 : Nat) : Int))) "]\x7d".toList).1 = _
  rw [hsz]
  unfold snprintf_at
  have hc : List.take (3 - 1) "]\x7d".toList = "]\x7d".toList := by decide
  rw [if_neg (by decide), hc]
  conv_lhs => rw [← hl]
  rw [List.take_left]

/-- Beyond the bound of the table. The static table of the provider holds
at most `MAX_PROCS` entries, so no list of the program is as long as the two
of this remark. With the 816 processes of `env_overflow` every
pid text fits, the running offset ends at 8191, and the closing `snprintf`
has room for the terminator only: the returned text is the header followed
by all pids and ends in the digit 5, without the closing `]}`; it is not of
the form header, pids of a prefix of the list, `]}`. With the 1000 processes
of `env_truncated` the loop stops at the 816th entry and the returned text
is the header, 815 pids each followed by a comma, and `]}`: the array ends
in a trailing comma. -/
theorem handle_get_processes_overflow_malformed :
    (handle_get_processes env_overflow
        = get_processes_header ++ pids_text env_overflow.proc_list
      ∧ (handle_get_processes env_overflow).length = 8191
      ∧ (handle_get_processes env_overflow).getLast? = some '5'
      ∧ ¬ ∃ k : Nat, handle_get_processes env_overflow
          = get_processes_header ++ pids_text (env_overflow.proc_list.take k)
            ++ "]\x7d".toList)
    ∧ (handle_get_processes env_truncated
        = get_processes_header ++ pids_with_commas (env_truncated.proc_list.take 815)
          ++ "]\x7d".toList
      ∧ ∃ front : CStr, handle_get_processes env_truncated = front ++ ",]\x7d".toList) := by
  have hq : fmt_d proc_last.pid = ['5', '5'] := by decide
  constructor
  · obtain ⟨hlen, front, hfront⟩ := pids_text_replicate_length 815 proc_wide proc_last
    simp only [fmt_d_proc_wide_length, hq, List.length_cons, List.length_nil] at hlen hfront
    have hlist : env_overflow.proc_list = List.replicate 815 proc_wide ++ [proc_last] := rfl
    have hlen2 : (pids_text env_overflow.proc_list).length = 8152 := by
      rw [hlist, hlen]
    have hst := get_processes_state_fits env_overflow (by decide)
      (by rw [hlen2]; decide)
    have hresp : handle_get_processes env_overflow
        = get_processes_header ++ pids_text env_overflow.proc_list := by
      unfold handle_get_processes
      rw [hst, hlen2]
      have hsz : to_size_t ((JSON_BUFFER_SIZE : Int) - ((39 + 8152 : Nat) : Int)) = 1 := by
        decide
      have hl : (get_processes_header ++ pids_text env_overflow.proc_list).length
          = 39 + 8152 := by
        rw [List.length_append, hlen2]; rfl
      show (snprintf_at (get_processes_header ++ pids_text env_overflow.proc_list) (39 + 8152)
        (to_size_t ((JSON_BUFFER_SIZE : Int) - ((39 + 8152 : Nat) : Int))) "]\x7d".toList).1 = _
      rw [hsz]
      unfold snprintf_at
      simp only [Nat.one_ne_zero, if_false, Nat.sub_self, List.take_zero, List.append_nil]
      rw [← hl, List.take_length]
    have hlast : (handle_get_processes env_overflow).getLast? = some '5' := by
      rw [hresp, hlist, hfront]
      simp
    refine ⟨hresp, ?_, hlast, ?_⟩
    · rw [hresp, List.length_append, hlen2]; rfl
    · rintro ⟨k, hk⟩
      rw [hk] at hlast
      simp at hlast
  · have htake : env_truncated.proc_list.take 815 = List.replicate 815 proc_wide := by
      rw [env_truncated_list]
      exact take_replicate_append 815 proc_wide _
    obtain ⟨front, hfront⟩ := (pids_with_commas_replicate 815 proc_wide).2 (by decide)
    refine ⟨by rw [htake]; exact handle_get_processes_truncated,
      get_processes_header ++ front, ?_⟩
    rw [handle_get_processes_truncated, hfront]
    simp

/-! ## `handle_simple_process_details` -/

theorem json_escape_loop_length_le (lim1 lim2 : Nat) (hlim : lim2 + 1 = lim1) :
    ∀ (s dest : CStr), dest.length ≤ lim1 →
      (json_escape_loop lim1 lim2 s dest).length ≤ lim1 := by
  intro s
  induction s with
  | nil => intro dest h; simpa [json_escape_loop] using h
  | cons c cs ih =>
    intro dest h
    rw [json_escape_loop]
    split_ifs
    · exact ih _ (by simp only [List.length_append, List.length_cons, List.length_nil]; omega)
    · exact ih _ h
    · exact ih _ (by simp only [List.length_append, List.length_cons, List.length_nil]; omega)
    · exact ih _ h
    · exact ih _ (by simp only [List.length_append, List.length_cons, List.length_nil]; omega)
    · exact h

theorem json_escape_string_256_length (s : CStr) :
    (json_escape_string s 256).length ≤ 255 := by
  unfold json_escape_string
  have e1 : (256 + SIZE_MOD - 1) % SIZE_MOD = 255 := by decide
  have e2 : (256 + SIZE_MOD - 2) % SIZE_MOD = 254 := by decide
  rw [e1, e2]
  exact json_escape_loop_length_le 255 254 rfl s [] (by simp)

theorem user_group_length_le (pid : Int) : (user_group pid).length ≤ 10 := by
  unfold user_group
  split_ifs <;> decide

theorem simple_details_header_eq :
    "\x7b\"request_type\":\"".toList ++ MSG_GET_SIMPLE_DETAILS ++ "\",\"pid\":".toList
      = simple_details_header := by decide

/-- The text of `handle_simple_process_details` for a matched process: the
opening with the pid, the escaped name, the user group, and a rest that
starts with the uptime field. The fields up to the user group are never
reached by the truncation of `snprintf`. -/
theorem handle_simple_process_details_text (env : Env) (pid : Int) (p : proc_info_t)
    (hpid0 : 0 ≤ pid) (hpidmax : pid ≤ INT_MAX) (hok : env.collect_ret ≥ 0)
    (hfind : env.proc_list.find? (fun q => q.pid = pid) = some p) :
    ∃ post : CStr, handle_simple_process_details env pid
      = simple_details_header ++ fmt_d pid ++ ",\"name\":\"".toList
        ++ json_escape_string p.name 256 ++ "\",\"user\":\"".toList ++ user_group pid
        ++ "\",\"uptime\":".toList ++ post := by
  have hfl := fmt_d_length_le pid (by unfold INT_MIN; omega) hpidmax
  have hel := json_escape_string_256_length p.name
  have hul := user_group_length_le pid
  have hhl : simple_details_header.length = 48 := by decide
  have h0 : (snprintf_at [] 0 JSON_BUFFER_SIZE (simple_details_header ++ fmt_d pid)).1
      = simple_details_header ++ fmt_d pid := by
    unfold snprintf_at JSON_BUFFER_SIZE
    simp only [List.take_zero, List.nil_append]
    rw [if_neg (by decide), List.take_of_length_le (by rw [List.length_append]; omega)]
  have hl0 : (simple_details_header ++ fmt_d pid).length ≤ 59 := by
    rw [List.length_append]; omega
  unfold handle_simple_process_details
  rw [simple_details_header_eq]
  simp only [h0, hok, if_true, hfind]
  have hsz : to_size_t ((JSON_BUFFER_SIZE : Int)
      - (((simple_details_header ++ fmt_d pid).length : Nat) : Int))
      = 8192 - (simple_details_header ++ fmt_d pid).length := by
    rw [to_size_t_of_nonneg _ (by unfold JSON_BUFFER_SIZE; omega)
      (by unfold JSON_BUFFER_SIZE; omega)]
    unfold JSON_BUFFER_SIZE; omega
  rw [hsz]
  unfold snprintf_at
  rw [if_neg (by omega), List.take_length]
  simp only
  have hsplit : ∀ (a b c d : CStr) (r : CStr) (n : Nat),
      (a ++ b ++ c ++ d).length ≤ n →
      List.take n (a ++ b ++ c ++ d ++ r) = a ++ b ++ c ++ d ++ List.take (n - (a ++ b ++ c ++ d).length) r := by
    intro a b c d r n h
    rw [List.take_append_eq_append_take, List.take_of_length_le h]
  refine ⟨List.take (8192 - (simple_details_header ++ fmt_d pid).length - 1
      - (",\"name\":\"".toList ++ json_escape_string p.name 256 ++ "\",\"user\":\"".toList
          ++ user_group pid ++ "\",\"uptime\":".toList).length)
      (fmt_u ((env.now - p.start_time) % (SIZE_MOD : Int)).toNat ++ ",\"cpu_usage\":".toList
        ++ p.cpu_usage ++ ",\"ram_usage\":".toList ++ fmt_u p.memory_usage) ++ "\x7d".toList, ?_⟩
  have hT : ",\"name\":\"".toList ++ json_escape_string p.name 256 ++ "\",\"user\":\"".toList
      ++ user_group pid ++ "\",\"uptime\":".toList
      ++ fmt_u ((env.now - p.start_time) % (SIZE_MOD : Int)).toNat ++ ",\"cpu_usage\":".toList
      ++ p.cpu_usage ++ ",\"ram_usage\":".toList ++ fmt_u p.memory_usage
      = (",\"name\":\"".toList ++ json_escape_string p.name 256 ++ "\",\"user\":\"".toList
          ++ user_group pid ++ "\",\"uptime\":".toList)
        ++ (fmt_u ((env.now - p.start_time) % (SIZE_MOD : Int)).toNat
          ++ ",\"cpu_usage\":".toList ++ p.cpu_usage ++ ",\"ram_usage\":".toList
          ++ fmt_u p.memory_usage) := by
    simp only [List.append_assoc]
  rw [hT, List.take_append_eq_append_take, List.take_of_length_le (by
    have h1 : (",\"name\":\"".toList).length = 9 := by decide
    have h2 : ("\",\"user\":\"".toList).length = 10 := by decide
    have h3 : ("\",\"uptime\":".toList).length = 11 := by decide
    simp only [List.length_append, h1, h2, h3] at hl0 ⊢
    omega)]
  simp only [List.append_assoc]

/-- C10. For a target pid `0 ≤ pid` (an `int`) whose first match in the
refreshed snapshot is `p`, the response of `handle_simple_process_details`
carries, right after the name field, the user field with the value `System`
when `pid ≤ 100`, `User` when `100 < pid ≤ 1000`, and `Background` when
`pid > 1000`; exactly one of the three cases holds for every pid. -/
theorem handle_simple_process_details_user (env : Env) (pid : Int) (p : proc_info_t)
    (hpid0 : 0 ≤ pid) (hpidmax : pid ≤ INT_MAX) (hok : env.collect_ret ≥ 0)
    (hfind : env.proc_list.find? (fun q => q.pid = pid) = some p) :
    ∃ band post : CStr,
      handle_simple_process_details env pid
        = "\x7b\"request_type\":\"GetSimpleProcessDetails\",\"pid\":".toList ++ fmt_d pid
          ++ ",\"name\":\"".toList ++ json_escape_string p.name 256
          ++ "\",\"user\":\"".toList ++ band ++ "\",\"uptime\":".toList ++ post
      ∧ (pid ≤ 100 → band = "System".toList)
      ∧ (100 < pid ∧ pid ≤ 1000 → band = "User".toList)
      ∧ (1000 < pid → band = "Background".toList)
      ∧ (band = "System".toList ∨ band = "User".toList ∨ band = "Background".toList) := by
  obtain ⟨post, hpost⟩ := handle_simple_process_details_text env pid p hpid0 hpidmax hok hfind
  refine ⟨user_group pid, post, hpost, ?_, ?_, ?_, ?_⟩
  · intro h
    simp [user_group, h]
  · intro h
    have h1 : ¬ pid ≤ 100 := by omega
    simp [user_group, h1, h.2]
  · intro h
    have h1 : ¬ pid ≤ 100 := by omega
    have h2 : ¬ pid ≤ 1000 := by omega
    simp [user_group, h1, h2]
  · unfold user_group
    split_ifs
    · exact Or.inl rfl
    · exact Or.inr (Or.inl rfl)
    · exact Or.inr (Or.inr rfl)

theorem handle_simple_process_details_user_witness :
    ∃ band post : CStr,
      handle_simple_process_details env_bands 1000
        = "\x7b\"request_type\":\"GetSimpleProcessDetails\",\"pid\":".toList ++ fmt_d 1000
          ++ ",\"name\":\"".toList ++ json_escape_string "sh".toList 256
          ++ "\",\"user\":\"".toList ++ band ++ "\",\"uptime\":".toList ++ post
      ∧ ((1000 : Int) ≤ 100 → band = "System".toList)
      ∧ ((100 : Int) < 1000 ∧ (1000 : Int) ≤ 1000 → band = "User".toList)
      ∧ ((1000 : Int) < 1000 → band = "Background".toList)
      ∧ (band = "System".toList ∨ band = "User".toList ∨ band = "Background".toList) :=
  handle_simple_process_details_user env_bands 1000
    { pid := 1000, name := "sh".toList, memory_usage := 8192,
      cpu_usage := "0.50".toList, start_time := 20 }
    (by decide) (by decide) (by decide) (by decide)

/-! ## Unmatched targets, the suspend handler and failed refreshes -/

theorem snprintf_at_nil_fits (text : CStr) (h : text.length < JSON_BUFFER_SIZE) :
    snprintf_at [] 0 JSON_BUFFER_SIZE text = (text, text.length) := by
  unfold snprintf_at
  unfold JSON_BUFFER_SIZE at h ⊢
  simp only [List.take_nil, List.nil_append]
  rw [if_neg (by decide), List.take_of_length_le (by omega)]

theorem handle_simple_process_details_no_match (env : Env) (pid : Int)
    (hlo : INT_MIN ≤ pid) (hhi : pid ≤ INT_MAX)
    (hnone : env.proc_list.find? (fun q => q.pid = pid) = none) :
    handle_simple_process_details env pid
      = simple_details_header ++ fmt_d pid ++ "\x7d".toList := by
  have hfl := fmt_d_length_le pid hlo hhi
  have hhl : simple_details_header.length = 48 := by decide
  unfold handle_simple_process_details
  rw [simple_details_header_eq,
    snprintf_at_nil_fits _ (by rw [List.length_append]; unfold JSON_BUFFER_SIZE; omega)]
  simp only [hnone]
  split_ifs <;> rfl

theorem handle_simple_process_details_congr (env1 env2 : Env) (pid : Int)
    (hret : env1.collect_ret = env2.collect_ret) (hnow : env1.now = env2.now)
    (hfind : env1.proc_list.find? (fun q => q.pid = pid)
      = env2.proc_list.find? (fun q => q.pid = pid)) :
    handle_simple_process_details env1 pid = handle_simple_process_details env2 pid := by
  unfold handle_simple_process_details
  rw [hret, hnow, hfind]

/-- C11. For a target pid (an `int`) that no entry of the snapshot carries,
`handle_simple_process_details` returns exactly
`{"request_type":"GetSimpleProcessDetails","pid":<pid>}`, with no further
field. When the snapshot is `l1 ++ p :: l2` with no entry of `l1` carrying
the target pid and `p` carrying it, the response is the one for the snapshot
that holds `p` alone: the entries after the first match contribute
nothing. -/
theorem handle_simple_process_details_unmatched (env : Env) (pid : Int)
    (hlo : INT_MIN ≤ pid) (hhi : pid ≤ INT_MAX) :
    ((∀ q ∈ env.proc_list, q.pid ≠ pid) →
      handle_simple_process_details env pid
        = "\x7b\"request_type\":\"GetSimpleProcessDetails\",\"pid\":".toList ++ fmt_d pid
          ++ "\x7d".toList)
    ∧ (∀ (l1 l2 : List proc_info_t) (p : proc_info_t),
        env.proc_list = l1 ++ p :: l2 → (∀ q ∈ l1, q.pid ≠ pid) → p.pid = pid →
        handle_simple_process_details env pid
          = handle_simple_process_details { env with proc_list := [p] } pid) := by
  constructor
  · intro hno
    have hnone : env.proc_list.find? (fun q => q.pid = pid) = none := by
      rw [List.find?_eq_none]
      intro q hq
      simpa using hno q hq
    exact handle_simple_process_details_no_match env pid hlo hhi hnone
  · intro l1 l2 p hlist hl1 hp
    have h1 : l1.find? (fun q => decide (q.pid = pid)) = none := by
      rw [List.find?_eq_none]
      intro q hq
      simpa using hl1 q hq
    exact handle_simple_process_details_congr env { env with proc_list := [p] } pid rfl rfl
      (by simp [hlist, List.find?_append, h1, List.find?_cons, hp])

theorem handle_simple_process_details_unmatched_witness :
    handle_simple_process_details env_three 8
        = "\x7b\"request_type\":\"GetSimpleProcessDetails\",\"pid\":8\x7d".toList
    ∧ handle_simple_process_details env_three 7
        = handle_simple_process_details
            { env_three with
              proc_list := [{ pid := 7, name := "sh".toList, memory_usage := 8192,
                              cpu_usage := "0.50".toList, start_time := 20 }] } 7 :=
  ⟨(handle_simple_process_details_unmatched env_three 8 (by decide) (by decide)).1
      (by decide),
    (handle_simple_process_details_unmatched env_three 7 (by decide) (by decide)).2
      [{ pid := 42, name := "init".toList, memory_usage := 4096,
         cpu_usage := "0.00".toList, start_time := 10 }]
      [{ pid := 500, name := "mon".toList, memory_usage := 1024,
         cpu_usage := "1.25".toList, start_time := 30 }]
      { pid := 7, name := "sh".toList, memory_usage := 8192,
        cpu_usage := "0.50".toList, start_time := 20 }
      rfl (by decide) rfl⟩

/-- C12. `proc_adjust_priority` returns -1 for every pid, priority and
policy, and for every pid (an `int`) `handle_suspend_process` returns
exactly `{"request_type":"SuspendProcess","pid":<pid>,"success":false}`; the
text with `"success":true` is never returned. -/
theorem handle_suspend_process_fails (pid : Int) (hlo : INT_MIN ≤ pid) (hhi : pid ≤ INT_MAX) :
    (∀ p priority policy : Int, proc_adjust_priority p priority policy = -1)
    ∧ handle_suspend_process pid
        = "\x7b\"request_type\":\"SuspendProcess\",\"pid\":".toList ++ fmt_d pid
          ++ ",\"success\":false\x7d".toList
    ∧ handle_suspend_process pid
        ≠ "\x7b\"request_type\":\"SuspendProcess\",\"pid\":".toList ++ fmt_d pid
          ++ ",\"success\":true\x7d".toList := by
  have hfl := fmt_d_length_le pid hlo hhi
  have key : handle_suspend_process pid
      = "\x7b\"request_type\":\"SuspendProcess\",\"pid\":".toList ++ fmt_d pid
        ++ ",\"success\":false\x7d".toList := by
    unfold handle_suspend_process
    have hs : (proc_adjust_priority pid 0 0 == 0) = false := rfl
    rw [hs]
    simp only [Bool.false_eq_true, if_false]
    have hh : "\x7b\"request_type\":\"".toList ++ MSG_SUSPEND_PROCESS ++ "\",\"pid\":".toList
        = "\x7b\"request_type\":\"SuspendProcess\",\"pid\":".toList := by decide
    rw [hh]
    have h1 : ("\x7b\"request_type\":\"SuspendProcess\",\"pid\":".toList).length = 39 := by
      decide
    rw [snprintf_at_nil_fits _ (by
      simp only [List.length_append, h1]
      unfold JSON_BUFFER_SIZE
      simp
      omega)]
    simp only [List.append_assoc]
    congr 2
  refine ⟨fun _ _ _ => rfl, key, ?_⟩
  rw [key]
  intro h
  have h2 := List.append_cancel_left h
  exact absurd h2 (by decide)

theorem handle_suspend_process_fails_witness :
    handle_suspend_process 42
      = "\x7b\"request_type\":\"SuspendProcess\",\"pid\":42,\"success\":false\x7d".toList :=
  (handle_suspend_process_fails 42 (by decide) (by decide)).2.1

theorem detailed_header_eq (pid : Int) :
    "\x7b\"request_type\":\"".toList ++ MSG_GET_DETAILED_DETAILS ++ "\",\"pid\":".toList
      ++ fmt_d pid ++ ",\"entries\":[".toList = detailed_header pid := by
  have h : "\x7b\"request_type\":\"".toList ++ MSG_GET_DETAILED_DETAILS ++ "\",\"pid\":".toList
      = "\x7b\"request_type\":\"GetDetailedProcessDetails\",\"pid\":".toList := by decide
  rw [h]
  rfl

theorem detailed_header_length_le (pid : Int) (hlo : INT_MIN ≤ pid) (hhi : pid ≤ INT_MAX) :
    (detailed_header pid).length ≤ 73 := by
  have hfl := fmt_d_length_le pid hlo hhi
  have h1 : ("\x7b\"request_type\":\"GetDetailedProcessDetails\",\"pid\":".toList).length = 50 := by
    decide
  have h2 : (",\"entries\":[".toList).length = 12 := by decide
  unfold detailed_header
  simp only [List.length_append, h1, h2]
  omega

/-- The closing `snprintf` of a handler, when the two bytes of `]}` fit
behind the content. -/
theorem snprintf_at_closing (response : CStr) (offset : Nat)
    (hlen : response.length = offset) (hfit : offset + 2 < JSON_BUFFER_SIZE) :
    (snprintf_at response offset (to_size_t ((JSON_BUFFER_SIZE : Int) - (offset : Int)))
      "]\x7d".toList).1 = response ++ "]\x7d".toList := by
  rw [snprintf_at_fits response offset _ hlen (by
    have : ("]\x7d".toList).length = 2 := by decide
    omega)]

/-- C13. When `proc_collect_info` returns a negative value,
`handle_get_processes` returns exactly
`{"request_type":"GetProcesses","pids":[]}`, and for every pid (an `int`) and
every history store `handle_detailed_process_details` returns exactly
`{"request_type":"GetDetailedProcessDetails","pid":<pid>,"entries":[]}` and
leaves the history store as it was. -/
theorem refresh_failure_empty_arrays (env : Env) (hfail : env.collect_ret < 0) :
    handle_get_processes env = "\x7b\"request_type\":\"GetProcesses\",\"pids\":[]\x7d".toList
    ∧ (∀ (hist : History) (pid : Int), INT_MIN ≤ pid → pid ≤ INT_MAX →
        handle_detailed_process_details env hist pid
          = (hist, "\x7b\"request_type\":\"GetDetailedProcessDetails\",\"pid\":".toList
              ++ fmt_d pid ++ ",\"entries\":[]\x7d".toList)) := by
  have hno : ¬ env.collect_ret ≥ 0 := by omega
  constructor
  · unfold handle_get_processes get_processes_state
    rw [get_processes_header_eq, if_neg hno]
    decide
  · intro hist pid hlo hhi
    have hl := detailed_header_length_le pid hlo hhi
    have h0 := snprintf_at_nil_fits (detailed_header pid) (by unfold JSON_BUFFER_SIZE; omega)
    unfold handle_detailed_process_details
    rw [detailed_header_eq]
    simp only [hno, if_false, h0]
    rw [snprintf_at_closing _ _ rfl (by unfold JSON_BUFFER_SIZE; omega)]
    simp [detailed_header]

theorem refresh_failure_empty_arrays_witness :
    handle_get_processes { env_three with collect_ret := -1 }
        = "\x7b\"request_type\":\"GetProcesses\",\"pids\":[]\x7d".toList
    ∧ handle_detailed_process_details { env_three with collect_ret := -1 } [] 42
        = ([], "\x7b\"request_type\":\"GetDetailedProcessDetails\",\"pid\":42,\"entries\":[]\x7d".toList) :=
  have h := refresh_failure_empty_arrays { env_three with collect_ret := -1 } (by decide)
  ⟨h.1, h.2 [] 42 (by decide) (by decide)⟩

/-! ## Process groups -/

/-- C19. With a non-null result pointer `proc_group_find_process` returns 0
and stores group id 0 when `pid ≤ 100`, 1 when `101 ≤ pid ≤ 1000` and 2 when
`pid > 1000`, whatever the pointee held; with a null pointer it returns -1
and stores nothing. -/
theorem proc_group_find_process_bands (pid : Int) :
    (∀ old : Int, pid ≤ 100 → proc_group_find_process pid (some old) = (0, some 0))
    ∧ (∀ old : Int, 101 ≤ pid → pid ≤ 1000 →
        proc_group_find_process pid (some old) = (0, some 1))
    ∧ (∀ old : Int, pid > 1000 → proc_group_find_process pid (some old) = (0, some 2))
    ∧ proc_group_find_process pid none = (-1, none) := by
  refine ⟨?_, ?_, ?_, rfl⟩
  · intro old h
    have h1 : ¬ pid > 100 := by omega
    have h2 : ¬ pid > 1000 := by omega
    simp [proc_group_find_process, h1, h2]
  · intro old h h'
    have h1 : pid > 100 := by omega
    have h2 : ¬ pid > 1000 := by omega
    simp [proc_group_find_process, h1, h2]
  · intro old h
    simp [proc_group_find_process, h]

theorem proc_group_find_process_bands_witness :
    proc_group_find_process 100 (some 7) = (0, some 0)
    ∧ proc_group_find_process 101 (some 7) = (0, some 1)
    ∧ proc_group_find_process 1001 (some 7) = (0, some 2) :=
  ⟨(proc_group_find_process_bands 100).1 7 (by decide),
    (proc_group_find_process_bands 101).2.1 7 (by decide) (by decide),
    (proc_group_find_process_bands 1001).2.2.1 7 (by decide)⟩

theorem adjust_priority_loop_result (groups : GroupTable) (group_id priority : Int) :
    ((adjust_priority_loop groups group_id priority).1 = 0
        ↔ ∃ g ∈ groups, g.id = group_id)
    ∧ ((adjust_priority_loop groups group_id priority).1 = 0
        ∨ (adjust_priority_loop groups group_id priority).1 = -1) := by
  induction groups with
  | nil => simp [adjust_priority_loop]
  | cons g gs ih =>
    by_cases h : g.id = group_id
    · simp [adjust_priority_loop, h]
    · simp only [adjust_priority_loop, h, if_false, List.mem_cons, exists_eq_or_imp,
        false_or]
      exact ih

/-- C20. `proc_group_adjust_priority` returns 0 exactly when
`1 ≤ priority ≤ 63` and one of the tracked groups has the id `group_id`, and
returns -1 in every other case. For the table that `proc_group_collect_info`
leaves, the tracked ids are 0, 1 and 2. -/
theorem proc_group_adjust_priority_result (groups : GroupTable) (group_id priority : Int) :
    ((proc_group_adjust_priority groups group_id priority).1 = 0
        ↔ (1 ≤ priority ∧ priority ≤ 63 ∧ ∃ g ∈ groups, g.id = group_id))
    ∧ (¬ (1 ≤ priority ∧ priority ≤ 63 ∧ ∃ g ∈ groups, g.id = group_id) →
        (proc_group_adjust_priority groups group_id priority).1 = -1)
    ∧ ((proc_group_adjust_priority (proc_group_collect_info groups).2 group_id priority).1 = 0
        ↔ (1 ≤ priority ∧ priority ≤ 63
            ∧ (group_id = 0 ∨ group_id = 1 ∨ group_id = 2))) := by
  have key : ∀ gs : GroupTable, (proc_group_adjust_priority gs group_id priority).1 = 0
      ↔ (1 ≤ priority ∧ priority ≤ 63 ∧ ∃ g ∈ gs, g.id = group_id) := by
    intro gs
    unfold proc_group_adjust_priority
    by_cases hp : priority < 1 ∨ priority > 63
    · rw [if_pos hp]
      constructor
      · intro h; simp at h
      · rintro ⟨h1, h2, _⟩; omega
    · rw [if_neg hp, (adjust_priority_loop_result gs group_id priority).1]
      constructor
      · intro h; exact ⟨by omega, by omega, h⟩
      · rintro ⟨_, _, h⟩; exact h
  refine ⟨key groups, ?_, ?_⟩
  · intro hnot
    have h0 : ¬ (proc_group_adjust_priority groups group_id priority).1 = 0 :=
      fun h => hnot ((key groups).mp h)
    unfold proc_group_adjust_priority at h0 ⊢
    by_cases hp : priority < 1 ∨ priority > 63
    · rw [if_pos hp]
    · rw [if_neg hp] at h0 ⊢
      rcases (adjust_priority_loop_result groups group_id priority).2 with h | h
      · exact absurd h h0
      · exact h
  · rw [key]
    simp only [proc_group_collect_info, List.mem_cons, List.mem_singleton, exists_eq_or_imp,
      exists_eq_left, List.not_mem_nil, false_and, exists_false, or_false]
    constructor
    · rintro ⟨h1, h2, h3⟩
      exact ⟨h1, h2, by rcases h3 with h | h | h <;> simp [← h]⟩
    · rintro ⟨h1, h2, h3⟩
      exact ⟨h1, h2, by rcases h3 with h | h | h <;> simp [h]⟩

theorem proc_group_adjust_priority_result_witness :
    (proc_group_adjust_priority (proc_group_collect_info []).2 1 64).1 = -1
    ∧ (proc_group_adjust_priority (proc_group_collect_info []).2 3 5).1 = -1 :=
  ⟨(proc_group_adjust_priority_result (proc_group_collect_info []).2 1 64).2.1
      (fun h => absurd h.2.1 (by decide)),
    (proc_group_adjust_priority_result (proc_group_collect_info []).2 3 5).2.1
      (fun h => by
        obtain ⟨_, _, g, hg, hid⟩ := h
        simp [proc_group_collect_info] at hg
        rcases hg with h | h | h <;> subst h <;> simp at hid)⟩

/-! ## Connection registry and event loop -/

/-- With no empty slot the registration loop stores nothing and the state
is left as it was: no slot changes, `num_clients` stays, nothing is
closed. -/
theorem accept_register_full (st : ServerState) (new_socket : Int)
    (hfull : ∀ c ∈ st.client_sockets, c ≠ 0) : accept_register st new_socket = st := by
  have h : ∀ l : List Int, (∀ c ∈ l, c ≠ 0) → (register_slot l new_socket).2 = false := by
    intro l
    induction l with
    | nil => intro _; rfl
    | cons c cs ih =>
      intro hl
      have hc : c ≠ 0 := hl c (List.mem_cons_self _ _)
      simp only [register_slot, hc, if_false]
      exact ih (fun d hd => hl d (List.mem_cons_of_mem _ hd))
  unfold accept_register
  simp [h st.client_sockets hfull]

set_option maxRecDepth 100000 in
/-- C14 (defect). With all 30 slots occupied, a cycle in which `accept`
returns the new descriptor 34 leaves the slots and `num_clients` as they
were and stores 34 nowhere, but makes no call at all: the list of calls
stays empty, so `close(34)` is never issued and the accepted connection
stays open. -/
theorem socket_cycle_full_registry_no_close :
    (socket_cycle input_accept state_full).client_sockets = state_full.client_sockets
    ∧ (socket_cycle input_accept state_full).num_clients = 30
    ∧ 34 ∉ (socket_cycle input_accept state_full).client_sockets
    ∧ (socket_cycle input_accept state_full).events = []
    ∧ Event.close 34 ∉ (socket_cycle input_accept state_full).events := by
  decide

set_option maxRecDepth 100000 in
/-- C15 (defect). With the connection 5 registered in slot 0 and a `read`
on it that returns -1, the cycle closes nothing and frees no slot: slot 0
still holds 5, `num_clients` is still 1, the terminator is stored at index
-1, and `process_message` is called for the connection on the bytes that an
earlier read left in the buffer. -/
theorem socket_cycle_read_error_dispatched :
    (socket_cycle input_read_error state_one).client_sockets = state_one.client_sockets
    ∧ (socket_cycle input_read_error state_one).client_sockets.getD 0 0 = 5
    ∧ (socket_cycle input_read_error state_one).num_clients = 1
    ∧ (socket_cycle input_read_error state_one).events
        = [Event.store_terminator (-1), Event.process_message 5 "stale".toList]
    ∧ Event.close 5 ∉ (socket_cycle input_read_error state_one).events := by
  decide

/-- The body of the read loop on a peer close. For a slot `i` of the
registry whose descriptor
is flagged in the descriptor set and whose `read` returns 0, the body closes
that descriptor, stores the empty marker 0 in slot `i`, lowers `num_clients`
by one, makes no other call (in particular no `process_message` call), and
leaves every slot `j ≠ i`, the listening descriptor, the stop flag and the
buffer unchanged. -/
theorem read_slot_peer_closed (inp : CycleInput) (fds : List Int) (st : ServerState)
    (i : Nat) (hi : i < st.client_sockets.length)
    (hready : fds.contains (st.client_sockets.getD i 0) = true)
    (hzero : inp.read_ret i = 0) :
    (read_slot inp fds st i).client_sockets = st.client_sockets.set i 0
    ∧ (read_slot inp fds st i).client_sockets.getD i 0 = 0
    ∧ (∀ j, j ≠ i →
        (read_slot inp fds st i).client_sockets.getD j 0 = st.client_sockets.getD j 0)
    ∧ (read_slot inp fds st i).num_clients = st.num_clients - 1
    ∧ (read_slot inp fds st i).events
        = st.events ++ [Event.close (st.client_sockets.getD i 0)]
    ∧ (∀ sd m, Event.process_message sd m ∈ (read_slot inp fds st i).events →
        Event.process_message sd m ∈ st.events)
    ∧ (read_slot inp fds st i).server_fd = st.server_fd
    ∧ (read_slot inp fds st i).running = st.running
    ∧ (read_slot inp fds st i).buffer = st.buffer := by
  have hst : read_slot inp fds st i
      = { st with
          client_sockets := st.client_sockets.set i 0
          num_clients := st.num_clients - 1
          events := st.events ++ [Event.close (st.client_sockets.getD i 0)] } := by
    unfold read_slot
    simp only [hready, hzero, if_true]
  rw [hst]
  refine ⟨rfl, ?_, ?_, rfl, rfl, ?_, rfl, rfl, rfl⟩
  · simp [List.getD_eq_getElem?_getD, List.getElem?_set, hi]
  · intro j hj
    have hne : ¬ i = j := fun h => hj h.symm
    simp [List.getD_eq_getElem?_getD, List.getElem?_set, hne]
  · intro sd m hm
    simp only [List.mem_append, List.mem_singleton] at hm
    rcases hm with h | h
    · exact h
    · cases h

set_option maxRecDepth 100000 in
theorem read_slot_peer_closed_witness :
    (read_slot input_peer_closed (read_fds state_one input_peer_closed) state_one 0).client_sockets
        = List.replicate 30 0
    ∧ (read_slot input_peer_closed (read_fds state_one input_peer_closed) state_one 0).num_clients
        = 0
    ∧ (read_slot input_peer_closed (read_fds state_one input_peer_closed) state_one 0).events
        = [Event.close 5] :=
  have h := read_slot_peer_closed input_peer_closed (read_fds state_one input_peer_closed)
    state_one 0 (by decide) (by decide) rfl
  ⟨h.1, h.2.2.2.1, h.2.2.2.2.1⟩

theorem shutdown_slots_eq (l : List Int) :
    (shutdown_slots l).1 = l.map (fun c => if c > 0 then 0 else c)
      ∧ (shutdown_slots l).2 = (l.filter (fun c => c > 0)).map Event.close := by
  induction l with
  | nil => exact ⟨rfl, rfl⟩
  | cons c cs ih =>
    by_cases h : c > 0
    · simp [shutdown_slots, h, ih.1, ih.2]
    · simp [shutdown_slots, h, ih.1, ih.2]

/-- The effect of `socket_server_shutdown`. A call clears the
stop flag and tears the registry down itself: every slot that held a
positive descriptor is closed and set to the empty marker 0, every other
slot keeps its value, the listening descriptor is closed and set to -1 when
it was not negative, the history module is shut down, and `num_clients` and
the buffer are left as they were. -/
theorem socket_server_shutdown_effect (st : ServerState) :
    (socket_server_shutdown st).running = 0
    ∧ (socket_server_shutdown st).client_sockets
        = st.client_sockets.map (fun c => if c > 0 then 0 else c)
    ∧ (socket_server_shutdown st).server_fd = (if st.server_fd ≥ 0 then -1 else st.server_fd)
    ∧ (socket_server_shutdown st).events
        = st.events ++ (st.client_sockets.filter (fun c => c > 0)).map Event.close
          ++ (if st.server_fd ≥ 0 then [Event.close st.server_fd] else [])
          ++ [Event.history_shutdown]
    ∧ (socket_server_shutdown st).num_clients = st.num_clients
    ∧ (socket_server_shutdown st).buffer = st.buffer := by
  have h := shutdown_slots_eq st.client_sockets
  unfold socket_server_shutdown
  by_cases hfd : st.server_fd ≥ 0
  · simp [hfd, h.1, h.2]
  · simp [hfd, h.1, h.2]

set_option maxRecDepth 100000 in
/-- C17 (defect). For the registry with the connection 5 in slot 0 and the
listening descriptor 3, `socket_server_shutdown`, which runs in the context
of its caller and not in the event-loop worker, changes both the slot array
and the listening descriptor: slot 0 holds 0 afterwards, the listening
descriptor is -1, and both descriptors were closed by the call itself. -/
theorem socket_server_shutdown_changes_registry :
    (socket_server_shutdown state_one).client_sockets ≠ state_one.client_sockets
    ∧ (socket_server_shutdown state_one).server_fd ≠ state_one.server_fd
    ∧ (socket_server_shutdown state_one).client_sockets = List.replicate 30 0
    ∧ (socket_server_shutdown state_one).server_fd = -1
    ∧ (socket_server_shutdown state_one).events
        = [Event.close 5, Event.close 3, Event.history_shutdown] := by
  decide

/-! ## `handle_detailed_process_details` -/

theorem entries_text_at_pos (es : List proc_history_entry_t) :
    ∀ j, 0 < j →
      entries_text_at j es = (es.map (fun e => [','] ++ entry_text e)).flatten := by
  induction es with
  | nil => intro j _; rfl
  | cons e rest ih =>
    intro j hj
    simp only [entries_text_at, entry_text_at, hj, if_true, List.map_cons, List.flatten_cons]
    rw [ih (j + 1) (Nat.succ_pos j)]

theorem intercalate_cons_flatten (sep a : CStr) (l : List CStr) :
    List.intercalate sep (a :: l) = a ++ (l.map (fun x => sep ++ x)).flatten := by
  induction l generalizing a with
  | nil => simp [List.intercalate, List.intersperse]
  | cons b l ih =>
    have h : List.intercalate sep (a :: b :: l) = a ++ sep ++ List.intercalate sep (b :: l) := by
      simp [List.intercalate, List.intersperse]
    rw [h, ih b]
    simp

theorem entries_text_at_zero (es : List proc_history_entry_t) :
    entries_text_at 0 es = entries_text es := by
  cases es with
  | nil => simp [entries_text_at, entries_text, List.intercalate]
  | cons e rest =>
    simp only [entries_text_at, entry_text_at, lt_self_iff_false, if_false, gt_iff_lt,
      List.nil_append, entries_text, List.map_cons]
    rw [entries_text_at_pos rest 1 (by decide), intercalate_cons_flatten, List.map_map]
    rfl

theorem entries_text_append_single (es : List proc_history_entry_t)
    (e : proc_history_entry_t) :
    (entries_text es).length ≤ (entries_text (es ++ [e])).length := by
  cases es with
  | nil => simp [entries_text, List.intercalate]
  | cons a rest =>
    simp only [entries_text, List.cons_append, List.map_cons, intercalate_cons_flatten,
      List.map_append, List.flatten_append, List.length_append]
    omega

/-- One iteration of the entry loop whose text fits the rest of the
buffer. -/
theorem detailed_entries_loop_step (e : proc_history_entry_t)
    (rest : List proc_history_entry_t) (response : CStr) (offset j : Nat)
    (hlen : response.length = offset)
    (hfit : offset + (entry_text_at j e).length < JSON_BUFFER_SIZE) :
    detailed_entries_loop response offset j (e :: rest)
      = detailed_entries_loop (response ++ entry_text_at j e)
          (offset + (entry_text_at j e).length) (j + 1) rest := by
  have htext : (if j > 0 then ",".toList else []) ++ "\x7b\"cpu_usage\":".toList ++ e.cpu_usage
      ++ ",\"ram_usage\":".toList ++ fmt_u e.memory_usage ++ ",\"timestamp\":".toList
      ++ fmt_d e.timestamp ++ "\x7d".toList = entry_text_at j e := by
    unfold entry_text_at entry_text
    have hc : ",".toList = [','] := rfl
    rw [hc]
    simp only [List.append_assoc]
  rw [detailed_entries_loop]
  simp only [htext, snprintf_at_fits response offset _ hlen hfit]
  have hnt : ¬ ((((entry_text_at j e).length : Nat) : Int)
      ≥ (JSON_BUFFER_SIZE : Int) - (offset : Int)) := by
    omega
  rw [if_neg hnt]

/-- While the entry texts fit, the loop appends them and advances the
offset by their length. -/
theorem detailed_entries_loop_fits : ∀ (es : List proc_history_entry_t) (response : CStr)
    (offset j : Nat), response.length = offset →
    offset + (entries_text_at j es).length < JSON_BUFFER_SIZE →
    detailed_entries_loop response offset j es
      = (response ++ entries_text_at j es, offset + (entries_text_at j es).length) := by
  intro es
  induction es with
  | nil =>
    intro response offset j _ _
    simp [detailed_entries_loop, entries_text_at]
  | cons e rest ih =>
    intro response offset j hlen hfit
    simp only [entries_text_at, List.length_append] at hfit ⊢
    rw [detailed_entries_loop_step e rest response offset j hlen (by omega),
      ih _ _ _ (by rw [List.length_append, hlen]) (by omega)]
    simp only [List.append_assoc, Nat.add_assoc]

/-- The handler on a matched pid: one sample is recorded, the series is
read back, and the response is built from the entries returned. -/
theorem handle_detailed_matched (env : Env) (hist : History) (pid : Int) (p : proc_info_t)
    (hlo : INT_MIN ≤ pid) (hhi : pid ≤ INT_MAX) (hok : env.collect_ret ≥ 0)
    (hfind : env.proc_list.find? (fun q => q.pid = pid) = some p) :
    handle_detailed_process_details env hist pid
      = (hist ++ [(pid, sample_of p env.now)],
          (snprintf_at
            (detailed_entries_loop (detailed_header pid) (detailed_header pid).length 0
              (proc_history_get_entries (hist ++ [(pid, sample_of p env.now)]) pid
                env.MAX_HISTORY_ENTRIES)).1
            (detailed_entries_loop (detailed_header pid) (detailed_header pid).length 0
              (proc_history_get_entries (hist ++ [(pid, sample_of p env.now)]) pid
                env.MAX_HISTORY_ENTRIES)).2
            (to_size_t ((JSON_BUFFER_SIZE : Int)
              - ((detailed_entries_loop (detailed_header pid) (detailed_header pid).length 0
                  (proc_history_get_entries (hist ++ [(pid, sample_of p env.now)]) pid
                    env.MAX_HISTORY_ENTRIES)).2 : Int)))
            "]\x7d".toList).1) := by
  have hl := detailed_header_length_le pid hlo hhi
  have h0 := snprintf_at_nil_fits (detailed_header pid) (by unfold JSON_BUFFER_SIZE; omega)
  unfold handle_detailed_process_details
  rw [detailed_header_eq]
  simp only [hok, if_true, h0, hfind]
  rfl

theorem handle_detailed_fits (env : Env) (hist : History) (pid : Int) (p : proc_info_t)
    (hlo : INT_MIN ≤ pid) (hhi : pid ≤ INT_MAX) (hok : env.collect_ret ≥ 0)
    (hfind : env.proc_list.find? (fun q => q.pid = pid) = some p)
    (hfit : (detailed_response pid
      (proc_history_get_entries (hist ++ [(pid, sample_of p env.now)]) pid
        env.MAX_HISTORY_ENTRIES)).length < JSON_BUFFER_SIZE) :
    handle_detailed_process_details env hist pid
      = (hist ++ [(pid, sample_of p env.now)],
          detailed_response pid
            (proc_history_get_entries (hist ++ [(pid, sample_of p env.now)]) pid
              env.MAX_HISTORY_ENTRIES)) := by
  have h2 : ("]\x7d".toList).length = 2 := by decide
  unfold detailed_response at hfit ⊢
  simp only [List.length_append, h2] at hfit
  rw [handle_detailed_matched env hist pid p hlo hhi hok hfind,
    detailed_entries_loop_fits _ _ _ _ rfl (by rw [entries_text_at_zero]; omega)]
  simp only
  rw [snprintf_at_closing _ _ (by rw [List.length_append])
    (by rw [entries_text_at_zero]; omega), entries_text_at_zero]

theorem get_entries_room (hist : History) (pid : Int) (extra : List proc_history_entry_t)
    (max_count : Nat) (s : proc_history_entry_t)
    (h1 : retained_samples hist pid = extra)
    (hroom : extra.length + 1 ≤ max_count) :
    proc_history_get_entries (hist ++ [(pid, s)]) pid max_count = extra ++ [s] := by
  unfold proc_history_get_entries
  unfold retained_samples at h1
  simp only [List.filter_append, List.map_append, h1]
  have hs : (List.filter (fun e => decide (e.1 = pid)) [(pid, s)]).map (fun e => e.2) = [s] := by
    simp [List.filter]
  rw [hs, List.take_of_length_le (by rw [List.length_append]; simpa using hroom)]

theorem retained_samples_append (hist : History) (pid : Int) (s : proc_history_entry_t) :
    retained_samples (hist ++ [(pid, s)]) pid = retained_samples hist pid ++ [s] := by
  unfold retained_samples
  simp [List.filter_append, List.filter]

theorem get_entries_saturated (hist extra : History) (pid : Int) (max_count : Nat)
    (hfull : max_count ≤ (retained_samples hist pid).length) :
    proc_history_get_entries (hist ++ extra) pid max_count
      = (retained_samples hist pid).take max_count := by
  unfold proc_history_get_entries
  unfold retained_samples at hfull ⊢
  rw [List.filter_append, List.map_append, List.take_append_of_le_length hfull]

/-- C18 (as the code has it). For a pid (an `int`) that the snapshot holds
at both calls, when the store retains at least two samples of the pid fewer
than `MAX_HISTORY_ENTRIES` and the second response fits the response buffer,
two successive calls of `handle_detailed_process_details` record one sample
each, the first response holds the retained samples followed by the first
new sample, and the second response holds exactly the entries of the first,
unchanged and in the same order, followed by the second new sample: one
entry more. -/
theorem handle_detailed_twice_grows (env1 env2 : Env) (hist : History) (pid : Int)
    (p1 p2 : proc_info_t) (hlo : INT_MIN ≤ pid) (hhi : pid ≤ INT_MAX)
    (hok1 : env1.collect_ret ≥ 0) (hok2 : env2.collect_ret ≥ 0)
    (hfind1 : env1.proc_list.find? (fun q => q.pid = pid) = some p1)
    (hfind2 : env2.proc_list.find? (fun q => q.pid = pid) = some p2)
    (hmax : env2.MAX_HISTORY_ENTRIES = env1.MAX_HISTORY_ENTRIES)
    (hroom : (retained_samples hist pid).length + 2 ≤ env1.MAX_HISTORY_ENTRIES)
    (hfit : (detailed_response pid
      (retained_samples hist pid ++ [sample_of p1 env1.now] ++ [sample_of p2 env2.now])).length
        < JSON_BUFFER_SIZE) :
    (handle_detailed_process_details env1 hist pid).2
        = detailed_response pid (retained_samples hist pid ++ [sample_of p1 env1.now])
    ∧ (handle_detailed_process_details env2
          (handle_detailed_process_details env1 hist pid).1 pid).2
        = detailed_response pid
            (retained_samples hist pid ++ [sample_of p1 env1.now] ++ [sample_of p2 env2.now])
    ∧ (handle_detailed_process_details env2
          (handle_detailed_process_details env1 hist pid).1 pid).1
        = hist ++ [(pid, sample_of p1 env1.now)] ++ [(pid, sample_of p2 env2.now)]
    ∧ (retained_samples hist pid ++ [sample_of p1 env1.now]).length
        < (retained_samples hist pid ++ [sample_of p1 env1.now]
            ++ [sample_of p2 env2.now]).length
    ∧ (retained_samples hist pid ++ [sample_of p1 env1.now])
        <+: (retained_samples hist pid ++ [sample_of p1 env1.now]
            ++ [sample_of p2 env2.now]) := by
  have hE1 := get_entries_room hist pid (retained_samples hist pid) env1.MAX_HISTORY_ENTRIES
    (sample_of p1 env1.now) rfl (by omega)
  have hE2 := get_entries_room (hist ++ [(pid, sample_of p1 env1.now)]) pid
    (retained_samples hist pid ++ [sample_of p1 env1.now]) env2.MAX_HISTORY_ENTRIES
    (sample_of p2 env2.now) (retained_samples_append hist pid _)
    (by rw [hmax, List.length_append]; simpa using hroom)
  have hfit1 : (detailed_response pid
      (retained_samples hist pid ++ [sample_of p1 env1.now])).length < JSON_BUFFER_SIZE := by
    have := entries_text_append_single (retained_samples hist pid ++ [sample_of p1 env1.now])
      (sample_of p2 env2.now)
    unfold detailed_response at hfit ⊢
    simp only [List.length_append] at hfit this ⊢
    omega
  have h1 := handle_detailed_fits env1 hist pid p1 hlo hhi hok1 hfind1 (by rw [hE1]; exact hfit1)
  rw [hE1] at h1
  have h2 := handle_detailed_fits env2 (hist ++ [(pid, sample_of p1 env1.now)]) pid p2 hlo hhi
    hok2 hfind2 (by rw [hE2]; exact hfit)
  rw [hE2] at h2
  have e1 : (handle_detailed_process_details env1 hist pid).1
      = hist ++ [(pid, sample_of p1 env1.now)] := by rw [h1]
  refine ⟨by rw [h1], by rw [e1, h2], by rw [e1, h2], by simp,
    ⟨[sample_of p2 env2.now], rfl⟩⟩

set_option maxRecDepth 100000 in
theorem handle_detailed_twice_grows_witness :
    (handle_detailed_process_details env_three [] 7).2
        = detailed_response 7 [sample_of
            { pid := 7, name := "sh".toList, memory_usage := 8192,
              cpu_usage := "0.50".toList, start_time := 20 } 1000]
    ∧ (handle_detailed_process_details env_three
          (handle_detailed_process_details env_three [] 7).1 7).2
        = "\x7b\"request_type\":\"GetDetailedProcessDetails\",\"pid\":7,\"entries\":[\x7b\"cpu_usage\":0.50,\"ram_usage\":8192,\"timestamp\":1000\x7d,\x7b\"cpu_usage\":0.50,\"ram_usage\":8192,\"timestamp\":1000\x7d]\x7d".toList :=
  have h := handle_detailed_twice_grows env_three env_three [] 7
    { pid := 7, name := "sh".toList, memory_usage := 8192,
      cpu_usage := "0.50".toList, start_time := 20 }
    { pid := 7, name := "sh".toList, memory_usage := 8192,
      cpu_usage := "0.50".toList, start_time := 20 }
    (by decide) (by decide) (by decide) (by decide) (by decide) (by decide) rfl
    (by decide) (by decide)
  ⟨h.1, h.2.1.trans (by decide)⟩

/-- C18 (counterexample). With `MAX_HISTORY_ENTRIES` at 100 and a store
that already retains 100 samples of the pid 7, two successive calls of
`handle_detailed_process_details` for the pid 7, present in the snapshot,
each record a sample, and the second response is the same text as the
first: its entries array has no more entries than the first. -/
theorem handle_detailed_twice_saturated :
    (handle_detailed_process_details env_three
        (handle_detailed_process_details env_three hist_saturated 7).1 7).2
      = (handle_detailed_process_details env_three hist_saturated 7).2
    ∧ (handle_detailed_process_details env_three hist_saturated 7).1
        = hist_saturated ++ [(7, sample_of
            { pid := 7, name := "sh".toList, memory_usage := 8192,
              cpu_usage := "0.50".toList, start_time := 20 } 1000)]
    ∧ (handle_detailed_process_details env_three
        (handle_detailed_process_details env_three hist_saturated 7).1 7).1
        ≠ (handle_detailed_process_details env_three hist_saturated 7).1 := by
  have hfull : env_three.MAX_HISTORY_ENTRIES ≤ (retained_samples hist_saturated 7).length := by
    decide
  have hm1 := handle_detailed_matched env_three hist_saturated 7
    { pid := 7, name := "sh".toList, memory_usage := 8192,
      cpu_usage := "0.50".toList, start_time := 20 }
    (by decide) (by decide) (by decide) (by decide)
  have hm2 := handle_detailed_matched env_three
    (hist_saturated ++ [(7, sample_of
      { pid := 7, name := "sh".toList, memory_usage := 8192,
        cpu_usage := "0.50".toList, start_time := 20 } env_three.now)]) 7
    { pid := 7, name := "sh".toList, memory_usage := 8192,
      cpu_usage := "0.50".toList, start_time := 20 }
    (by decide) (by decide) (by decide) (by decide)
  rw [List.append_assoc, get_entries_saturated hist_saturated _ 7 _ hfull] at hm2
  rw [get_entries_saturated hist_saturated _ 7 _ hfull] at hm1
  rw [hm1]
  simp only
  rw [hm2]
  refine ⟨rfl, rfl, ?_⟩
  intro h
  have hlen := congrArg List.length h
  simp at hlen

/-! ## Process groups: frame of `proc_group_adjust_priority` -/

theorem adjust_priority_loop_frame (groups : GroupTable) (group_id priority : Int) :
    ((adjust_priority_loop groups group_id priority).1 = -1 →
        (adjust_priority_loop groups group_id priority).2 = groups)
    ∧ ((adjust_priority_loop groups group_id priority).1 = 0 →
        ∃ (pre post : GroupTable) (g : process_group_t),
          groups = pre ++ g :: post ∧ (∀ h ∈ pre, h.id ≠ group_id) ∧ g.id = group_id
          ∧ (adjust_priority_loop groups group_id priority).2
              = pre ++ { g with priority := to_unsigned priority } :: post) := by
  induction groups with
  | nil =>
    constructor
    · intro _; rfl
    · intro h; simp [adjust_priority_loop] at h
  | cons a gs ih =>
    by_cases ha : a.id = group_id
    · constructor
      · intro h; simp [adjust_priority_loop, ha] at h
      · intro _
        exact ⟨[], gs, a, rfl, by simp, ha, by simp [adjust_priority_loop, ha]⟩
    · simp only [adjust_priority_loop, ha, if_false]
      constructor
      · intro h
        rw [ih.1 h]
      · intro h
        obtain ⟨pre, post, g, h1, h2, h3, h4⟩ := ih.2 h
        refine ⟨a :: pre, post, g, by rw [h1]; rfl, ?_, h3, by rw [h4]; rfl⟩
        intro x hx
        rcases List.mem_cons.mp hx with hx | hx
        · rw [hx]; exact ha
        · exact h2 x hx

/-- C26. When `proc_group_adjust_priority` returns -1 the tracked group
table is unchanged; when it returns 0 the table differs from the old one
only in the first group whose id equals `group_id`, and there only in the
priority, which has become the given priority: the groups before and after
it, its id, name and usage fields, and the number of tracked groups are
unchanged. -/
theorem proc_group_adjust_priority_frame (groups : GroupTable) (group_id priority : Int) :
    ((proc_group_adjust_priority groups group_id priority).1 = -1 →
        (proc_group_adjust_priority groups group_id priority).2 = groups)
    ∧ ((proc_group_adjust_priority groups group_id priority).1 = 0 →
        ∃ (pre post : GroupTable) (g : process_group_t),
          groups = pre ++ g :: post ∧ (∀ h ∈ pre, h.id ≠ group_id) ∧ g.id = group_id
          ∧ (proc_group_adjust_priority groups group_id priority).2
              = pre ++ { id := g.id, name := g.name, priority := priority.toNat,
                         cpu_usage := g.cpu_usage, memory_usage := g.memory_usage } :: post
          ∧ ((priority.toNat : Nat) : Int) = priority
          ∧ (proc_group_adjust_priority groups group_id priority).2.length = groups.length) := by
  unfold proc_group_adjust_priority
  by_cases hp : priority < 1 ∨ priority > 63
  · rw [if_pos hp]
    exact ⟨fun _ => rfl, fun h => by simp at h⟩
  · rw [if_neg hp]
    have hu : to_unsigned priority = priority.toNat := by
      unfold to_unsigned
      rw [Int.emod_eq_of_lt (by omega) (by omega)]
    refine ⟨(adjust_priority_loop_frame groups group_id priority).1, ?_⟩
    intro h
    obtain ⟨pre, post, g, h1, h2, h3, h4⟩ :=
      (adjust_priority_loop_frame groups group_id priority).2 h
    refine ⟨pre, post, g, h1, h2, h3, by rw [h4, hu], by omega, ?_⟩
    rw [h4, h1]
    simp

theorem proc_group_adjust_priority_frame_witness :
    (proc_group_adjust_priority (proc_group_collect_info []).2 7 5).2
        = (proc_group_collect_info []).2
    ∧ ∃ (pre post : GroupTable) (g : process_group_t),
        (proc_group_collect_info []).2 = pre ++ g :: post ∧ (∀ h ∈ pre, h.id ≠ 1) ∧ g.id = 1
        ∧ (proc_group_adjust_priority (proc_group_collect_info []).2 1 63).2
            = pre ++ { id := g.id, name := g.name, priority := (63 : Int).toNat,
                       cpu_usage := g.cpu_usage, memory_usage := g.memory_usage } :: post
        ∧ (((63 : Int).toNat : Nat) : Int) = 63
        ∧ (proc_group_adjust_priority (proc_group_collect_info []).2 1 63).2.length
            = (proc_group_collect_info []).2.length :=
  ⟨(proc_group_adjust_priority_frame (proc_group_collect_info []).2 7 5).1 (by decide),
    (proc_group_adjust_priority_frame (proc_group_collect_info []).2 1 63).2 (by decide)⟩

/-! ## Registration of an accepted connection -/

/-- With an empty slot in the registry the registration loop stores the
new descriptor in the first slot that holds 0. -/
theorem register_slot_first_empty (new_socket : Int) :
    ∀ l : List Int, (0 : Int) ∈ l →
      ∃ i, i < l.length ∧ l[i]? = some 0 ∧ (∀ j, j < i → l[j]? ≠ some 0)
        ∧ register_slot l new_socket = (l.set i new_socket, true) := by
  intro l
  induction l with
  | nil => intro h; simp at h
  | cons c cs ih =>
    intro h
    by_cases hc : c = 0
    · subst hc
      exact ⟨0, by simp, by simp, fun j hj => absurd hj (Nat.not_lt_zero j),
        by simp [register_slot]⟩
    · have hmem : (0 : Int) ∈ cs := by
        rcases List.mem_cons.mp h with h0 | h0
        · exact absurd h0.symm hc
        · exact h0
      obtain ⟨i, hi, hz, hlow, hreg⟩ := ih hmem
      refine ⟨i + 1, by simp [hi], by simpa using hz, ?_, ?_⟩
      · intro j hj
        cases j with
        | zero => simpa using hc
        | succ j => simpa using hlow j (by omega)
      · simp [register_slot, hc, hreg]

/-- C22. In a cycle in which `select` succeeds, the listening descriptor is
flagged and `accept` returns a descriptor, the registration runs before the
read loop; when the registry has an empty slot it stores the descriptor in
the lowest-index slot that holds the empty marker 0, raises `num_clients`
by one and makes no call. Every other slot keeps its value, so no slot that
holds a connection is overwritten. -/
theorem accept_register_first_empty (inp : CycleInput) (st : ServerState)
    (hact : 0 ≤ inp.activity)
    (hlisten : (read_fds st inp).contains st.server_fd = true)
    (hacc : 0 ≤ inp.accept_ret)
    (hempty : (0 : Int) ∈ st.client_sockets) :
    socket_cycle inp st
        = read_clients inp (read_fds st inp) (accept_register st inp.accept_ret)
    ∧ ∃ i, i < st.client_sockets.length ∧ st.client_sockets[i]? = some 0
        ∧ (∀ j, j < i → st.client_sockets[j]? ≠ some 0)
        ∧ (accept_register st inp.accept_ret).client_sockets
            = st.client_sockets.set i inp.accept_ret
        ∧ (accept_register st inp.accept_ret).client_sockets[i]? = some inp.accept_ret
        ∧ (∀ j : Nat, j ≠ i →
            (accept_register st inp.accept_ret).client_sockets[j]? = st.client_sockets[j]?)
        ∧ (∀ (j : Nat) (c : Int), st.client_sockets[j]? = some c → c ≠ 0 →
            (accept_register st inp.accept_ret).client_sockets[j]? = some c)
        ∧ (accept_register st inp.accept_ret).num_clients = st.num_clients + 1
        ∧ (accept_register st inp.accept_ret).events = st.events
        ∧ (accept_register st inp.accept_ret).server_fd = st.server_fd := by
  constructor
  · unfold socket_cycle
    have h1 : ¬ inp.activity < 0 := by omega
    have h2 : ¬ inp.accept_ret < 0 := by omega
    simp only [h1, h2, hlisten, if_true, if_false]
  · obtain ⟨i, hi, hz, hlow, hreg⟩ :=
      register_slot_first_empty inp.accept_ret st.client_sockets hempty
    have hst : accept_register st inp.accept_ret
        = { st with
            client_sockets := st.client_sockets.set i inp.accept_ret
            num_clients := st.num_clients + 1 } := by
      unfold accept_register
      simp [hreg]
    rw [hst]
    refine ⟨i, hi, hz, hlow, rfl, ?_, ?_, ?_, rfl, rfl, rfl⟩
    · simp [List.getElem?_set, hi]
    · intro j hj
      have hne : ¬ i = j := fun h => hj h.symm
      simp [List.getElem?_set, hne]
    · intro j c hj hc
      have hne : ¬ i = j := by
        intro h
        subst h
        rw [hz] at hj
        exact hc (Option.some.inj hj).symm
      simp [List.getElem?_set, hne, hj]

set_option maxRecDepth 100000 in
theorem accept_register_first_empty_witness :
    (accept_register state_one 34).client_sockets = 5 :: 34 :: List.replicate 28 0
    ∧ (accept_register state_one 34).num_clients = 2 :=
  have h := (accept_register_first_empty input_accept state_one (by decide) (by decide)
    (by decide) (by decide)).2
  ⟨by
      obtain ⟨i, _, hz, hlow, hset, _⟩ := h
      decide,
    by
      obtain ⟨i, _, _, _, _, _, _, _, hnum, _⟩ := h
      exact hnum⟩

/-! ## Shape of the escaped text -/

theorem escape_char_unit (c : Char) : is_escape_unit (escape_char c) := by
  unfold escape_char is_escape_unit
  by_cases h1 : c = '"'
  · simp [h1]
  · by_cases h2 : c = '\\'
    · simp [h2]
    · by_cases h3 : c = '\n'
      · simp [h3]
      · left
        exact ⟨c, by simp [h1, h2, h3], h1, h2, h3⟩

/-- What the loop of `json_escape_string` appends is the escaped form of a
subsequence of the source: every byte is either emitted whole, as its
escape unit, or not at all. -/
theorem json_escape_loop_units (lim1 lim2 : Nat) :
    ∀ (s dest : CStr), ∃ kept : CStr, kept.Sublist s
      ∧ json_escape_loop lim1 lim2 s dest = dest ++ escaped_form kept := by
  intro s
  induction s with
  | nil => intro dest; exact ⟨[], List.Sublist.slnil, by simp [json_escape_loop, escaped_form]⟩
  | cons c cs ih =>
    intro dest
    have keep : ∀ d : CStr, d = escape_char c →
        ∃ kept : CStr, kept.Sublist (c :: cs)
          ∧ json_escape_loop lim1 lim2 cs (dest ++ d) = dest ++ escaped_form kept := by
      intro d hd
      obtain ⟨k, hk, he⟩ := ih (dest ++ d)
      exact ⟨c :: k, hk.cons₂ c, by rw [he, escaped_form_cons, hd, List.append_assoc]⟩
    have drop : ∃ kept : CStr, kept.Sublist (c :: cs)
        ∧ json_escape_loop lim1 lim2 cs dest = dest ++ escaped_form kept := by
      obtain ⟨k, hk, he⟩ := ih dest
      exact ⟨k, hk.cons c, he⟩
    rw [json_escape_loop]
    by_cases h1 : dest.length < lim1
    · rw [if_pos h1]
      by_cases hq : c = '"' ∨ c = '\\'
      · rw [if_pos hq]
        by_cases h2 : dest.length < lim2
        · rw [if_pos h2]
          exact keep _ (by rcases hq with h | h <;> subst h <;> rfl)
        · rw [if_neg h2]
          exact drop
      · rw [if_neg hq]
        have hq1 : c ≠ '"' := fun h => hq (Or.inl h)
        have hq2 : c ≠ '\\' := fun h => hq (Or.inr h)
        by_cases hn : c = '\n'
        · rw [if_pos hn]
          by_cases h2 : dest.length < lim2
          · rw [if_pos h2]
            exact keep _ (by subst hn; rfl)
          · rw [if_neg h2]
            exact drop
        · rw [if_neg hn]
          exact keep _ (by simp [escape_char, hq1, hq2, hn])
    · rw [if_neg h1]
      exact ⟨[], List.nil_sublist _, by simp [escaped_form]⟩

/-- C23. For every source string and every `dest_size ≥ 1` (a `size_t`),
the text that `json_escape_string` leaves has at most `dest_size - 1` bytes
and is the escaped form of a subsequence of the source, hence a sequence of
units each of which is one byte other than double quote, backslash and
newline, or one of the escapes backslash-quote, backslash-backslash,
backslash-`n`: also when clipped it holds no raw double quote or newline and
no backslash without its second byte, and reading the escapes back gives
the bytes kept. -/
theorem json_escape_string_units (src : CStr) (dest_size : Nat)
    (hpos : 1 ≤ dest_size) (hsize : dest_size < SIZE_MOD) :
    (json_escape_string src dest_size).length ≤ dest_size - 1
    ∧ ∃ kept : CStr, kept.Sublist src
        ∧ json_escape_string src dest_size = escaped_form kept
        ∧ json_escape_string src dest_size = (kept.map escape_char).flatten
        ∧ (∀ u ∈ kept.map escape_char, is_escape_unit u)
        ∧ json_unescape (json_escape_string src dest_size) = kept := by
  constructor
  · unfold SIZE_MOD at hsize
    have e1 : (dest_size + SIZE_MOD - 1) % SIZE_MOD = dest_size - 1 := by
      unfold SIZE_MOD; omega
    unfold json_escape_string
    rw [e1]
    rcases Nat.eq_or_lt_of_le hpos with h1 | h2
    · rw [← h1]
      cases src with
      | nil => simp [json_escape_loop]
      | cons c cs => simp [json_escape_loop]
    · have e2 : (dest_size + SIZE_MOD - 2) % SIZE_MOD = dest_size - 2 := by
        unfold SIZE_MOD; omega
      rw [e2]
      exact json_escape_loop_length_le (dest_size - 1) (dest_size - 2) (by omega) src []
        (by simp)
  · obtain ⟨kept, hk, he⟩ := json_escape_loop_units
      ((dest_size + SIZE_MOD - 1) % SIZE_MOD) ((dest_size + SIZE_MOD - 2) % SIZE_MOD) src []
    have hout : json_escape_string src dest_size = escaped_form kept := by
      unfold json_escape_string
      rw [he]
      simp
    refine ⟨kept, hk, hout, ?_, ?_, ?_⟩
    · rw [hout]
      rfl
    · intro u hu
      obtain ⟨c, _, hc⟩ := List.mem_map.mp hu
      rw [← hc]
      exact escape_char_unit c
    · rw [hout, json_unescape_escaped_form]

theorem json_escape_string_units_witness :
    (json_escape_string "a\"b".toList 3).length ≤ 3 - 1
    ∧ ∃ kept : CStr, kept.Sublist "a\"b".toList
        ∧ json_escape_string "a\"b".toList 3 = escaped_form kept
        ∧ json_escape_string "a\"b".toList 3 = (kept.map escape_char).flatten
        ∧ (∀ u ∈ kept.map escape_char, is_escape_unit u)
        ∧ json_unescape (json_escape_string "a\"b".toList 3) = kept :=
  json_escape_string_units "a\"b".toList 3 (by decide) (by decide)

/-! ## Clipping of the escaped text -/

set_option maxRecDepth 100000 in
/-- Beyond the sources of the caller. The only call of `json_escape_string`
passes a name of at most 127 bytes and `dest_size` 256, so neither input of
this remark occurs in the program. With room for two bytes (`dest_size` 3) the source
`a"b` is written as `ab`: the double quote, whose escape no longer fits, is
left out and the later byte `b` is still emitted, so the output is not a
prefix of the escaped form `a\"b`. The same happens with the 256-byte
destination of the caller for a source of 254 bytes `a`, a double quote and
a `b`. -/
theorem json_escape_string_drops_middle :
    json_escape_string "a\"b".toList 3 = "ab".toList
    ∧ escaped_form "a\"b".toList = "a\\\"b".toList
    ∧ ¬ (json_escape_string "a\"b".toList 3 <+: escaped_form "a\"b".toList)
    ∧ json_escape_string (List.replicate 254 'a' ++ "\"b".toList) 256
        = List.replicate 254 'a' ++ "b".toList
    ∧ ¬ (json_escape_string (List.replicate 254 'a' ++ "\"b".toList) 256
          <+: escaped_form (List.replicate 254 'a' ++ "\"b".toList)) := by
  have h1 : json_escape_string "a\"b".toList 3 = "ab".toList := by decide
  have h2 : escaped_form "a\"b".toList = "a\\\"b".toList := by decide
  have h3 : json_escape_string (List.replicate 254 'a' ++ "\"b".toList) 256
      = List.replicate 254 'a' ++ "b".toList := by decide
  have h4 : escaped_form (List.replicate 254 'a' ++ "\"b".toList)
      = List.replicate 254 'a' ++ "\\\"b".toList := by decide
  refine ⟨h1, h2, ?_, h3, ?_⟩
  · rw [h1, h2]
    decide
  · rw [h3, h4]
    intro h
    have h5 := (List.prefix_append_right_inj (List.replicate 254 'a')).mp h
    exact absurd h5 (by decide)

/-! ## The terminator store and the registry counter -/

/-- In the read loop, for a flagged slot whose `read` returns a value other
than 0, the terminator is stored at the index `valread` itself and
`process_message` is called; no range check stands between the `read` and
the store. -/
theorem read_slot_dispatch (inp : CycleInput) (fds : List Int) (st : ServerState) (i : Nat)
    (hready : fds.contains (st.client_sockets.getD i 0) = true)
    (hret : inp.read_ret i ≠ 0) :
    ∃ message : CStr, (read_slot inp fds st i).events
        = st.events ++ [Event.store_terminator (inp.read_ret i),
            Event.process_message (st.client_sockets.getD i 0) message]
      ∧ (read_slot inp fds st i).client_sockets = st.client_sockets
      ∧ (read_slot inp fds st i).num_clients = st.num_clients := by
  have hst : ∃ (buf : List Char) (message : CStr), read_slot inp fds st i
      = { st with
          buffer := buf
          events := st.events ++ [Event.store_terminator (inp.read_ret i),
            Event.process_message (st.client_sockets.getD i 0) message] } := by
    unfold read_slot
    simp only [hready, hret, if_true, if_false]
    exact ⟨_, _, rfl⟩
  obtain ⟨buf, message, h⟩ := hst
  rw [h]
  exact ⟨message, rfl, rfl, rfl⟩

set_option maxRecDepth 100000 in
/-- C24 (defect). When the `read` on the connection 5 returns 4096, the
cycle stores the terminator at index 4096, one past the last element of the
4096-byte buffer, and when it returns -1 the terminator is stored at index
-1: neither index lies inside the buffer. -/
theorem socket_cycle_terminator_outside :
    (socket_cycle input_read_full state_one).events.head?
        = some (Event.store_terminator 4096)
    ∧ ¬ ((0 : Int) ≤ 4096 ∧ (4096 : Int) < (BUFFER_SIZE : Int))
    ∧ state_one.buffer.length = BUFFER_SIZE
    ∧ (socket_cycle input_read_error state_one).events.head?
        = some (Event.store_terminator (-1))
    ∧ ¬ ((0 : Int) ≤ -1 ∧ (-1 : Int) < (BUFFER_SIZE : Int)) := by
  refine ⟨?_, ?_, ?_, ?_, ?_⟩
  · decide
  · decide
  · show ("stale".toList ++ List.replicate 4091 '\x00').length = 4096
    rw [List.length_append, List.length_replicate]
    rfl
  · decide
  · decide

theorem nonzero_count_set_zero : ∀ (l : List Int) (i : Nat), l.getD i 0 ≠ 0 →
    ((l.set i 0).filter (fun c => c ≠ 0)).length + 1
      = (l.filter (fun c => c ≠ 0)).length := by
  intro l
  induction l with
  | nil => intro i h; simp at h
  | cons c cs ih =>
    intro i h
    cases i with
    | zero =>
      have hc : c ≠ 0 := by simpa using h
      simp [List.filter, hc]
    | succ i =>
      have h2 : cs.getD i 0 ≠ 0 := by simpa using h
      have := ih i h2
      by_cases hc : c = 0
      · simp [List.filter, hc] at this ⊢
        exact this
      · simp [List.filter, hc] at this ⊢
        omega

theorem register_slot_count (new_socket : Int) (hnew : new_socket ≠ 0) :
    ∀ l : List Int, (register_slot l new_socket).1.length = l.length
      ∧ ((register_slot l new_socket).1.filter (fun c => c ≠ 0)).length
          = (l.filter (fun c => c ≠ 0)).length
            + (if (register_slot l new_socket).2 then 1 else 0) := by
  intro l
  induction l with
  | nil => simp [register_slot]
  | cons c cs ih =>
    by_cases hc : c = 0
    · simp [register_slot, hc, List.filter, hnew]
    · obtain ⟨h1, h2⟩ := ih
      simp only [register_slot, hc, if_false, List.length_cons, h1, true_and]
      simp only [List.filter, hc, ne_eq, not_false_eq_true, decide_True, List.length_cons]
      simp only [ne_eq] at h2
      omega

/-- The registry invariant: the array has its `MAX_CLIENTS` slots and
`num_clients` is the number of slots that do not hold the empty marker. -/
theorem registry_invariant_step (st : ServerState) (op : RegistryOp)
    (hlen : st.client_sockets.length = MAX_CLIENTS)
    (hcount : st.num_clients = (nonzero_slots st : Int))
    (hop : op ≠ RegistryOp.shutdown) (hfd : op ≠ RegistryOp.accept 0) :
    (apply_op st op).client_sockets.length = MAX_CLIENTS
      ∧ (apply_op st op).num_clients = (nonzero_slots (apply_op st op) : Int) := by
  cases op with
  | shutdown => exact absurd rfl hop
  | accept new_socket =>
    have hnew : new_socket ≠ 0 := fun h => hfd (by rw [h])
    obtain ⟨h1, h2⟩ := register_slot_count new_socket hnew st.client_sockets
    unfold nonzero_slots at hcount ⊢
    simp only [apply_op, accept_register]
    by_cases hs : (register_slot st.client_sockets new_socket).2 = true
    · simp only [hs, if_true] at h2 ⊢
      exact ⟨by rw [h1, hlen], by rw [hcount, h2]; push_cast; ring⟩
    · simp only [hs, if_false]
      exact ⟨hlen, hcount⟩
  | peer_close i =>
    unfold nonzero_slots at hcount ⊢
    simp only [apply_op]
    by_cases hsd : st.client_sockets.getD i 0 > 0
    · have hne : st.client_sockets.getD i 0 ≠ 0 := by omega
      have hcnt := nonzero_count_set_zero st.client_sockets i hne
      have hrd : read_slot input_peer_closed [st.client_sockets.getD i 0] st i
          = { st with
              client_sockets := st.client_sockets.set i 0
              num_clients := st.num_clients - 1
              events := st.events ++ [Event.close (st.client_sockets.getD i 0)] } := by
        unfold read_slot
        simp [input_peer_closed]
      rw [if_pos hsd, hrd]
      simp only [List.length_set]
      refine ⟨hlen, ?_⟩
      rw [hcount]
      omega
    · rw [if_neg hsd]
      exact ⟨hlen, hcount⟩

/-- Without `socket_server_shutdown`, and with accepted descriptors other
than 0, every sequence of registrations and peer closes from the
initialised registry keeps the invariant: `num_clients` is the number of
non-zero slots and lies between 0 and `MAX_CLIENTS`. -/
theorem registry_invariant_without_shutdown (ops : List RegistryOp)
    (hops : ∀ op ∈ ops, op ≠ RegistryOp.shutdown ∧ op ≠ RegistryOp.accept 0) :
    (run_ops state_init ops).num_clients = (nonzero_slots (run_ops state_init ops) : Int)
      ∧ 0 ≤ (run_ops state_init ops).num_clients
      ∧ (run_ops state_init ops).num_clients ≤ (MAX_CLIENTS : Int) := by
  have key : ∀ (l : List RegistryOp) (st : ServerState),
      (∀ op ∈ l, op ≠ RegistryOp.shutdown ∧ op ≠ RegistryOp.accept 0) →
      st.client_sockets.length = MAX_CLIENTS → st.num_clients = (nonzero_slots st : Int) →
      (run_ops st l).client_sockets.length = MAX_CLIENTS
        ∧ (run_ops st l).num_clients = (nonzero_slots (run_ops st l) : Int) := by
    intro l
    induction l with
    | nil => intro st _ h1 h2; exact ⟨h1, h2⟩
    | cons op rest ih =>
      intro st hl h1 h2
      have hop := hl op (List.mem_cons_self _ _)
      obtain ⟨h3, h4⟩ := registry_invariant_step st op h1 h2 hop.1 hop.2
      exact ih (apply_op st op) (fun o ho => hl o (List.mem_cons_of_mem _ ho)) h3 h4
  have hinit1 : state_init.client_sockets.length = MAX_CLIENTS := by
    simp [state_init, init_client_sockets]
  have hinit2 : state_init.num_clients = (nonzero_slots state_init : Int) := by
    simp [state_init, init_client_sockets, nonzero_slots, List.filter_replicate]
  obtain ⟨h1, h2⟩ := key ops state_init hops hinit1 hinit2
  refine ⟨h2, by rw [h2]; exact Int.natCast_nonneg _, ?_⟩
  rw [h2]
  have hle : nonzero_slots (run_ops state_init ops) ≤ MAX_CLIENTS := by
    unfold nonzero_slots
    rw [← h1]
    exact List.length_filter_le _ _
  exact_mod_cast hle

set_option maxRecDepth 100000 in
/-- C25 (defect). From the initialised registry, registering the accepted
descriptor 5 and then calling `socket_server_shutdown` leaves every slot
empty while `num_clients` is still 1: the counter no longer equals the
number of non-zero slots. -/
theorem registry_counter_after_shutdown :
    (run_ops state_init [RegistryOp.accept 5, RegistryOp.shutdown]).client_sockets
        = List.replicate 30 0
    ∧ nonzero_slots (run_ops state_init [RegistryOp.accept 5, RegistryOp.shutdown]) = 0
    ∧ (run_ops state_init [RegistryOp.accept 5, RegistryOp.shutdown]).num_clients = 1
    ∧ (run_ops state_init [RegistryOp.accept 5, RegistryOp.shutdown]).num_clients
        ≠ (nonzero_slots (run_ops state_init [RegistryOp.accept 5, RegistryOp.shutdown]) : Int)
    ∧ (run_ops state_init [RegistryOp.accept 5]).num_clients
        = (nonzero_slots (run_ops state_init [RegistryOp.accept 5]) : Int) := by
  decide

/-! ## Well-formed process lists -/

theorem read_slot_other_slot (inp : CycleInput) (fds : List Int) (st : ServerState)
    (j k : Nat) (hk : k ≠ j) :
    (read_slot inp fds st j).client_sockets.getD k 0 = st.client_sockets.getD k 0 := by
  have hne : ¬ j = k := fun h => hk h.symm
  unfold read_slot
  simp only
  split_ifs <;> simp [List.getD_eq_getElem?_getD, List.getElem?_set, hne]

theorem read_slot_events_mono (inp : CycleInput) (fds : List Int) (st : ServerState)
    (j : Nat) (e : Event) (he : e ∈ st.events) : e ∈ (read_slot inp fds st j).events := by
  unfold read_slot
  simp only
  split_ifs <;> simp [he]

theorem read_slot_unflagged (inp : CycleInput) (fds : List Int) (st : ServerState) (j : Nat)
    (h : fds.contains (st.client_sockets.getD j 0) = false) : read_slot inp fds st j = st := by
  unfold read_slot
  simp only [h, Bool.false_eq_true, if_false]

theorem read_slot_closed_eq (inp : CycleInput) (fds : List Int) (st : ServerState) (i : Nat)
    (hready : fds.contains (st.client_sockets.getD i 0) = true)
    (hzero : inp.read_ret i = 0) :
    read_slot inp fds st i
      = { st with
          client_sockets := st.client_sockets.set i 0
          num_clients := st.num_clients - 1
          events := st.events ++ [Event.close (st.client_sockets.getD i 0)] } := by
  unfold read_slot
  simp only [hready, hzero, if_true]

theorem read_fold_keeps_slot (inp : CycleInput) (fds : List Int) (i : Nat) :
    ∀ (js : List Nat) (st : ServerState), i ∉ js →
      (js.foldl (read_slot inp fds) st).client_sockets.getD i 0
        = st.client_sockets.getD i 0 := by
  intro js
  induction js with
  | nil => intro st _; rfl
  | cons j js ih =>
    intro st hi
    have hij : i ≠ j := fun h => hi (by rw [h]; exact List.mem_cons_self _ _)
    rw [List.foldl_cons, ih _ (fun h => hi (List.mem_cons_of_mem _ h)),
      read_slot_other_slot inp fds st j i hij]

theorem read_fold_events_mono (inp : CycleInput) (fds : List Int) (e : Event) :
    ∀ (js : List Nat) (st : ServerState), e ∈ st.events →
      e ∈ (js.foldl (read_slot inp fds) st).events := by
  intro js
  induction js with
  | nil => intro st h; exact h
  | cons j js ih =>
    intro st h
    rw [List.foldl_cons]
    exact ih _ (read_slot_events_mono inp fds st j e h)

theorem read_fold_unflagged (inp : CycleInput) (fds : List Int) :
    ∀ (js : List Nat) (st : ServerState),
      (∀ j ∈ js, fds.contains (st.client_sockets.getD j 0) = false) →
      js.foldl (read_slot inp fds) st = st := by
  intro js
  induction js with
  | nil => intro st _; rfl
  | cons j js ih =>
    intro st h
    rw [List.foldl_cons, read_slot_unflagged inp fds st j (h j (List.mem_cons_self _ _))]
    exact ih st (fun k hk => h k (List.mem_cons_of_mem _ hk))

theorem range_split : ∀ (n i : Nat), i < n →
    List.range n = List.range i ++ i :: List.range' (i + 1) (n - (i + 1)) := by
  intro n
  induction n with
  | zero => intro i h; omega
  | succ n ih =>
    intro i h
    rw [List.range_succ]
    rcases Nat.lt_or_eq_of_le (Nat.le_of_lt_succ h) with hlt | heq
    · rw [ih i hlt]
      have e : n + 1 - (i + 1) = (n - (i + 1)) + 1 := by omega
      rw [e, List.range'_1_concat]
      have e2 : i + 1 + (n - (i + 1)) = n := by omega
      rw [e2]
      simp
    · subst heq
      simp

theorem register_slot_keeps_nonzero (new_socket : Int) :
    ∀ (l : List Int) (i : Nat), l.getD i 0 ≠ 0 →
      (register_slot l new_socket).1.getD i 0 = l.getD i 0 := by
  intro l
  induction l with
  | nil => intro i h; simp at h
  | cons c cs ih =>
    intro i h
    by_cases hc : c = 0
    · cases i with
      | zero => simp [hc] at h
      | succ i => simp [register_slot, hc]
    · cases i with
      | zero => simp [register_slot, hc]
      | succ i =>
        have h2 : cs.getD i 0 ≠ 0 := by simpa using h
        simpa [register_slot, hc] using ih i h2

theorem read_loop_start_keeps_nonzero (inp : CycleInput) (st : ServerState) (i : Nat)
    (h : st.client_sockets.getD i 0 ≠ 0) :
    (read_loop_start inp st).client_sockets.getD i 0 = st.client_sockets.getD i 0 := by
  have hr := register_slot_keeps_nonzero inp.accept_ret st.client_sockets i h
  unfold read_loop_start accept_register
  by_cases h1 : (read_fds st inp).contains st.server_fd = true
  · by_cases h2 : (register_slot st.client_sockets inp.accept_ret).2 = true
    · simp only [h1, h2, if_true]
      exact hr
    · have h3 : (register_slot st.client_sockets inp.accept_ret).2 = false := by
        simpa using h2
      simp only [h1, h3, if_true, Bool.false_eq_true, if_false]
  · have h3 : (read_fds st inp).contains st.server_fd = false := by simpa using h1
    simp only [h3, Bool.false_eq_true, if_false]

theorem socket_cycle_read_loop (inp : CycleInput) (st : ServerState)
    (hact : 0 ≤ inp.activity)
    (hacc : (read_fds st inp).contains st.server_fd = true → 0 ≤ inp.accept_ret) :
    socket_cycle inp st = read_clients inp (read_fds st inp) (read_loop_start inp st) := by
  have h1 : ¬ inp.activity < 0 := by omega
  unfold socket_cycle read_loop_start
  by_cases hl : (read_fds st inp).contains st.server_fd = true
  · have h2 : ¬ inp.accept_ret < 0 := by have := hacc hl; omega
    simp only [h1, h2, hl, if_true, if_false]
  · simp only [h1, hl, if_false]
    rfl

theorem registered_slot_flagged (inp : CycleInput) (st : ServerState) (i : Nat) (sd : Int)
    (hslot : st.client_sockets.getD i 0 = sd) (hsd : 0 < sd) (hready : inp.ready sd = true) :
    (read_fds st inp).contains sd = true := by
  have hmem : sd ∈ st.client_sockets := by
    rw [List.getD_eq_getElem?_getD] at hslot
    cases hg : st.client_sockets[i]? with
    | none => rw [hg] at hslot; simp at hslot; omega
    | some c =>
      rw [hg] at hslot
      simp at hslot
      rw [← hslot]
      exact List.getElem?_mem hg
  have hin : sd ∈ read_fds st inp := by
    unfold read_fds
    simp only [List.mem_filter, List.mem_cons]
    exact ⟨Or.inr ⟨hmem, by simpa using hsd⟩, hready⟩
  exact List.elem_iff.mpr hin

theorem read_slot_dispatched (inp : CycleInput) (fds : List Int) (st : ServerState) (j : Nat)
    (hready : fds.contains (st.client_sockets.getD j 0) = true)
    (hz : inp.read_ret j ≠ 0) :
    (read_slot inp fds st j).client_sockets = st.client_sockets
      ∧ ∃ n b, (read_slot inp fds st j).events
          = st.events ++ [Event.store_terminator n,
              Event.process_message (st.client_sockets.getD j 0) b] := by
  unfold read_slot
  simp only [hready, hz, if_true, if_false]
  exact ⟨trivial, _, _, rfl⟩

theorem read_slot_slot_cases (inp : CycleInput) (fds : List Int) (st : ServerState)
    (j k : Nat) :
    (read_slot inp fds st j).client_sockets.getD k 0 = st.client_sockets.getD k 0
      ∨ (read_slot inp fds st j).client_sockets.getD k 0 = 0 := by
  by_cases hk : k = j
  · subst hk
    by_cases hready : fds.contains (st.client_sockets.getD k 0) = true
    · by_cases hz : inp.read_ret k = 0
      · right
        rw [read_slot_closed_eq inp fds st k hready hz]
        simp only [List.getD_eq_getElem?_getD, List.getElem?_set, if_true]
        split <;> rfl
      · left
        rw [(read_slot_dispatched inp fds st k hready hz).1]
    · left
      have h : fds.contains (st.client_sockets.getD k 0) = false := by simpa using hready
      rw [read_slot_unflagged inp fds st k h]
  · left
    exact read_slot_other_slot inp fds st j k hk

theorem read_slot_message_origin (inp : CycleInput) (fds : List Int) (st : ServerState)
    (j : Nat) (sd : Int) (m : CStr)
    (h : Event.process_message sd m ∈ (read_slot inp fds st j).events) :
    Event.process_message sd m ∈ st.events ∨ st.client_sockets.getD j 0 = sd := by
  by_cases hready : fds.contains (st.client_sockets.getD j 0) = true
  · by_cases hz : inp.read_ret j = 0
    · rw [read_slot_closed_eq inp fds st j hready hz] at h
      simp only [List.mem_append, List.mem_singleton] at h
      rcases h with h | h
      · exact Or.inl h
      · cases h
    · obtain ⟨n, b, he⟩ := (read_slot_dispatched inp fds st j hready hz).2
      rw [he] at h
      simp only [List.mem_append, List.mem_cons, List.mem_singleton, List.not_mem_nil,
        or_false] at h
      rcases h with h | h | h
      · exact Or.inl h
      · cases h
      · injection h with h1 _
        exact Or.inr h1.symm
  · have hf : fds.contains (st.client_sockets.getD j 0) = false := by simpa using hready
    rw [read_slot_unflagged inp fds st j hf] at h
    exact Or.inl h

theorem read_fold_slot_cases (inp : CycleInput) (fds : List Int) (k : Nat) :
    ∀ (js : List Nat) (st : ServerState),
      (js.foldl (read_slot inp fds) st).client_sockets.getD k 0 = st.client_sockets.getD k 0
        ∨ (js.foldl (read_slot inp fds) st).client_sockets.getD k 0 = 0 := by
  intro js
  induction js with
  | nil => intro st; exact Or.inl rfl
  | cons j js ih =>
    intro st
    rw [List.foldl_cons]
    rcases ih (read_slot inp fds st j) with h | h
    · rw [h]
      exact read_slot_slot_cases inp fds st j k
    · exact Or.inr h

theorem read_fold_no_message (inp : CycleInput) (fds : List Int) (sd : Int) (hsd : sd ≠ 0)
    (m : CStr) :
    ∀ (js : List Nat) (st : ServerState),
      (∀ k, k ∈ js → st.client_sockets.getD k 0 ≠ sd) →
      Event.process_message sd m ∈ (js.foldl (read_slot inp fds) st).events →
      Event.process_message sd m ∈ st.events := by
  intro js
  induction js with
  | nil => intro st _ h; exact h
  | cons j js ih =>
    intro st hne h
    rw [List.foldl_cons] at h
    have hnext : ∀ k, k ∈ js → (read_slot inp fds st j).client_sockets.getD k 0 ≠ sd := by
      intro k hk
      rcases read_slot_slot_cases inp fds st j k with e | e
      · rw [e]
        exact hne k (List.mem_cons_of_mem _ hk)
      · rw [e]
        exact fun h0 => hsd h0.symm
    rcases read_slot_message_origin inp fds st j sd m (ih _ hnext h) with h1 | h1
    · exact h1
    · exact absurd h1 (hne j (List.mem_cons_self _ _))

theorem register_slot_cases (new_socket : Int) :
    ∀ (l : List Int) (k : Nat),
      (register_slot l new_socket).1.getD k 0 = l.getD k 0
        ∨ (register_slot l new_socket).1.getD k 0 = new_socket := by
  intro l
  induction l with
  | nil => intro k; exact Or.inl rfl
  | cons c cs ih =>
    intro k
    by_cases hc : c = 0
    · cases k with
      | zero => right; simp [register_slot, hc]
      | succ k => left; simp [register_slot, hc]
    · cases k with
      | zero => left; simp [register_slot, hc]
      | succ k => simpa [register_slot, hc] using ih k

theorem read_loop_start_slot_cases (inp : CycleInput) (st : ServerState) (k : Nat) :
    (read_loop_start inp st).client_sockets.getD k 0 = st.client_sockets.getD k 0
      ∨ (read_loop_start inp st).client_sockets.getD k 0 = inp.accept_ret := by
  have hr := register_slot_cases inp.accept_ret st.client_sockets k
  unfold read_loop_start accept_register
  simp only
  split_ifs
  · exact hr
  · exact Or.inl rfl
  · exact Or.inl rfl

theorem read_loop_start_events (inp : CycleInput) (st : ServerState) :
    (read_loop_start inp st).events = st.events := by
  unfold read_loop_start accept_register
  simp only
  split_ifs <;> rfl

/-- C16. In a cycle of the event loop in which `select` succeeds and which
reaches its read loop (no failing `accept`), for a connection registered in
slot `i < MAX_CLIENTS` (a positive descriptor `sd`) that `select` reports
ready and whose `read` returns 0: the cycle is the read loop run over all
slots; when the loop reaches slot `i` the slot still holds `sd`, and the
step for the slot closes `sd`, stores the empty marker 0 in slot `i`, lowers
`num_clients` by one and changes nothing else (no `process_message` call,
every slot `j ≠ i` as it was); at the end of the cycle slot `i` holds 0 and
`close(sd)` is among the calls made. When no other descriptor is flagged in
the cycle, the whole effect of the cycle is this one step. When no other
slot holds `sd` and `accept` does not hand out `sd` again, the cycle calls
`process_message` for `sd` zero times. -/
theorem socket_cycle_peer_closed (inp : CycleInput) (st : ServerState) (i : Nat) (sd : Int)
    (hact : 0 ≤ inp.activity)
    (hacc : (read_fds st inp).contains st.server_fd = true → 0 ≤ inp.accept_ret)
    (hi : i < MAX_CLIENTS)
    (hslot : st.client_sockets.getD i 0 = sd) (hsd : 0 < sd)
    (hready : inp.ready sd = true) (hzero : inp.read_ret i = 0) :
    socket_cycle inp st
        = read_loop_rest inp st i
            (read_slot inp (read_fds st inp) (read_loop_before inp st i) i)
    ∧ (read_loop_before inp st i).client_sockets.getD i 0 = sd
    ∧ read_slot inp (read_fds st inp) (read_loop_before inp st i) i
        = { read_loop_before inp st i with
            client_sockets := (read_loop_before inp st i).client_sockets.set i 0
            num_clients := (read_loop_before inp st i).num_clients - 1
            events := (read_loop_before inp st i).events ++ [Event.close sd] }
    ∧ (∀ j, j ≠ i →
        (read_slot inp (read_fds st inp) (read_loop_before inp st i) i).client_sockets.getD j 0
          = (read_loop_before inp st i).client_sockets.getD j 0)
    ∧ (socket_cycle inp st).client_sockets.getD i 0 = 0
    ∧ Event.close sd ∈ (socket_cycle inp st).events
    ∧ ((read_fds st inp).contains st.server_fd = false →
        (∀ j, j ≠ i → (read_fds st inp).contains (st.client_sockets.getD j 0) = false) →
        socket_cycle inp st
          = { st with
              client_sockets := st.client_sockets.set i 0
              num_clients := st.num_clients - 1
              events := st.events ++ [Event.close sd] })
    ∧ ((∀ j, j ≠ i → st.client_sockets.getD j 0 ≠ sd) → inp.accept_ret ≠ sd →
        ∀ m, Event.process_message sd m ∈ (socket_cycle inp st).events →
          Event.process_message sd m ∈ st.events) := by
  have hne : st.client_sockets.getD i 0 ≠ 0 := by omega
  have hnot1 : i ∉ List.range i := by simp
  have hnot2 : i ∉ List.range' (i + 1) (MAX_CLIENTS - (i + 1)) := by
    rw [List.mem_range'_1]
    omega
  have hcycle : socket_cycle inp st
      = read_loop_rest inp st i
          (read_slot inp (read_fds st inp) (read_loop_before inp st i) i) := by
    rw [socket_cycle_read_loop inp st hact hacc]
    unfold read_clients read_loop_rest read_loop_before
    rw [range_split MAX_CLIENTS i hi, List.foldl_append, List.foldl_cons]
  have hbefore : (read_loop_before inp st i).client_sockets.getD i 0 = sd := by
    unfold read_loop_before
    rw [read_fold_keeps_slot inp _ i _ _ hnot1, read_loop_start_keeps_nonzero inp st i hne,
      hslot]
  have hflag : (read_fds st inp).contains
      ((read_loop_before inp st i).client_sockets.getD i 0) = true := by
    rw [hbefore]
    exact registered_slot_flagged inp st i sd hslot hsd hready
  have hstep := read_slot_closed_eq inp (read_fds st inp) (read_loop_before inp st i) i
    hflag hzero
  rw [hbefore] at hstep
  refine ⟨hcycle, hbefore, hstep, ?_, ?_, ?_, ?_, ?_⟩
  · intro j hj
    exact read_slot_other_slot inp _ _ i j hj
  · rw [hcycle]
    unfold read_loop_rest
    rw [read_fold_keeps_slot inp _ i _ _ hnot2, hstep]
    simp only [List.getD_eq_getElem?_getD, List.getElem?_set, if_true]
    split <;> rfl
  · rw [hcycle]
    unfold read_loop_rest
    apply read_fold_events_mono
    rw [hstep]
    simp
  · intro hlisten hothers
    have hstart : read_loop_start inp st = st := by
      unfold read_loop_start
      simp only [hlisten, Bool.false_eq_true, if_false]
    have hb : read_loop_before inp st i = st := by
      unfold read_loop_before
      rw [hstart]
      apply read_fold_unflagged
      intro j hj
      exact hothers j (by
        intro h
        subst h
        exact hnot1 hj)
    rw [hcycle, hstep, hb]
    unfold read_loop_rest
    apply read_fold_unflagged
    intro j hj
    have hji : j ≠ i := by
      intro h
      rw [h] at hj
      exact hnot2 hj
    have hneq : ¬ i = j := fun h => hji h.symm
    have : (st.client_sockets.set i 0).getD j 0 = st.client_sockets.getD j 0 := by
      simp [List.getD_eq_getElem?_getD, List.getElem?_set, hneq]
    simp only [this]
    exact hothers j hji
  · intro huniq hnew m hm
    have hsd0 : sd ≠ 0 := by omega
    have hstart : ∀ k, k ≠ i → (read_loop_start inp st).client_sockets.getD k 0 ≠ sd := by
      intro k hk
      rcases read_loop_start_slot_cases inp st k with e | e
      · rw [e]
        exact huniq k hk
      · rw [e]
        exact hnew
    have hbef : ∀ k, k ≠ i → (read_loop_before inp st i).client_sockets.getD k 0 ≠ sd := by
      intro k hk
      unfold read_loop_before
      rcases read_fold_slot_cases inp (read_fds st inp) k (List.range i)
        (read_loop_start inp st) with e | e
      · rw [e]
        exact hstart k hk
      · rw [e]
        exact fun h0 => hsd0 h0.symm
    rw [hcycle] at hm
    unfold read_loop_rest at hm
    have h1 := read_fold_no_message inp (read_fds st inp) sd hsd0 m _ _
      (by
        intro k hk
        have hki : k ≠ i := by
          intro h
          rw [h] at hk
          exact hnot2 hk
        rw [read_slot_other_slot inp _ _ i k hki]
        exact hbef k hki) hm
    rw [hstep] at h1
    have h2 : Event.process_message sd m ∈ (read_loop_before inp st i).events := by
      simp only [List.mem_append, List.mem_singleton] at h1
      rcases h1 with h | h
      · exact h
      · cases h
    unfold read_loop_before at h2
    have h3 := read_fold_no_message inp (read_fds st inp) sd hsd0 m _ _
      (by
        intro k hk
        have hki : k ≠ i := by
          intro h
          rw [h] at hk
          exact hnot1 hk
        exact hstart k hki) h2
    rw [read_loop_start_events] at h3
    exact h3

set_option maxRecDepth 100000 in
theorem socket_cycle_peer_closed_witness :
    (socket_cycle input_peer_closed state_one).client_sockets.getD 0 0 = 0
    ∧ Event.close 5 ∈ (socket_cycle input_peer_closed state_one).events
    ∧ (socket_cycle input_peer_closed state_one
        = read_loop_rest input_peer_closed state_one 0
            (read_slot input_peer_closed (read_fds state_one input_peer_closed)
              (read_loop_before input_peer_closed state_one 0) 0)) :=
  have h := socket_cycle_peer_closed input_peer_closed state_one 0 5 (by decide) (by decide)
    (by decide) (by decide) (by decide) (by decide) (by decide)
  ⟨h.2.2.2.2.1, h.2.2.2.2.2.1, h.1⟩

end SocketServer
